import Mathlib

/-!
Formal model of `src/generate.py` (zoh-hokej-ics): an ICS-calendar generator
that scrapes an Olympic ice-hockey schedule page, normalizes team names,
extracts `Game` records through a cascade of four parsing strategies, and
post-processes them (playoff numbering, relevance filter, sort).

The HTML/HTTP layer (requests, BeautifulSoup) and the `dateutil` date parser
are external collaborators: the document is modelled as its three derived
views (wikitable rows, vevent rows, plain-text lines), and the date parser is
modelled as an executable function over the token grammars the script feeds
it.  All Python string/regex operations used by the script are implemented
directly over `List Char`.
-/

namespace Generate

/-! ## Character classes (ASCII, as used by the source's regexes) -/

def wsChars : List Char := [' ', '\t', '\n', '\x0b', '\x0c', '\r']

def isWsC (c : Char) : Bool := c ∈ wsChars

def digitChars : List Char := ['0', '1', '2', '3', '4', '5', '6', '7', '8', '9']

def isDigitC (c : Char) : Bool := c ∈ digitChars

def upperChars : List Char :=
  ['A', 'B', 'C', 'D', 'E', 'F', 'G', 'H', 'I', 'J', 'K', 'L', 'M',
   'N', 'O', 'P', 'Q', 'R', 'S', 'T', 'U', 'V', 'W', 'X', 'Y', 'Z']

def isUpperC (c : Char) : Bool := c ∈ upperChars

def lowerChars : List Char :=
  ['a', 'b', 'c', 'd', 'e', 'f', 'g', 'h', 'i', 'j', 'k', 'l', 'm',
   'n', 'o', 'p', 'q', 'r', 's', 't', 'u', 'v', 'w', 'x', 'y', 'z']

def isLowerC (c : Char) : Bool := c ∈ lowerChars

def isAlphaC (c : Char) : Bool := isUpperC c || isLowerC c

/-- Python's `\w` (ASCII part): letters, digits, underscore. -/
def isWordC (c : Char) : Bool := isAlphaC c || isDigitC c || c = '_'

/-- ASCII lowercase conversion (Python `str.lower` on the ASCII inputs used). -/
def toLowerC (c : Char) : Char :=
  match c with
  | 'A' => 'a' | 'B' => 'b' | 'C' => 'c' | 'D' => 'd' | 'E' => 'e'
  | 'F' => 'f' | 'G' => 'g' | 'H' => 'h' | 'I' => 'i' | 'J' => 'j'
  | 'K' => 'k' | 'L' => 'l' | 'M' => 'm' | 'N' => 'n' | 'O' => 'o'
  | 'P' => 'p' | 'Q' => 'q' | 'R' => 'r' | 'S' => 's' | 'T' => 't'
  | 'U' => 'u' | 'V' => 'v' | 'W' => 'w' | 'X' => 'x' | 'Y' => 'y'
  | 'Z' => 'z' | c => c

/-- Numeric value of a decimal digit character (0 for non-digits). -/
def charVal (c : Char) : Nat :=
  match c with
  | '0' => 0 | '1' => 1 | '2' => 2 | '3' => 3 | '4' => 4
  | '5' => 5 | '6' => 6 | '7' => 7 | '8' => 8 | '9' => 9
  | _ => 0

/-- The decimal digit character of `n % 10`-style values (`n ≤ 9` intended). -/
def digitChar (n : Nat) : Char :=
  match n with
  | 0 => '0' | 1 => '1' | 2 => '2' | 3 => '3' | 4 => '4'
  | 5 => '5' | 6 => '6' | 7 => '7' | 8 => '8' | 9 => '9'
  | _ => '0'

/-! ## List-of-char string operations -/

def lowerL (l : List Char) : List Char := l.map toLowerC

def lowerS (s : String) : String := String.mk (lowerL s.data)

/-- Split off the longest p-satisfying run from the front. -/
def splitWhile (p : Char → Bool) : List Char → List Char × List Char
  | [] => ([], [])
  | c :: rest =>
    if p c then
      let r := splitWhile p rest
      (c :: r.1, r.2)
    else ([], c :: rest)

/-- `needle` occurs as a prefix of `l`. -/
def leadsWith : List Char → List Char → Bool
  | [], _ => true
  | _ :: _, [] => false
  | a :: as, b :: bs => a = b && leadsWith as bs

/-- Python `needle in hay` substring containment on char lists. -/
def containsL (needle : List Char) : List Char → Bool
  | [] => needle.isEmpty
  | b :: bs => leadsWith needle (b :: bs) || containsL needle bs

/-- Python `hay.find(needle)`: leftmost occurrence index, `none` if absent. -/
def findSubIdx (needle : List Char) : List Char → Option Nat
  | [] => if needle.isEmpty then some 0 else none
  | b :: bs =>
    if leadsWith needle (b :: bs) then some 0
    else (findSubIdx needle bs).map (· + 1)

/-- Case-sensitive Python `sub in hay` on strings. -/
def containsSub (hay sub : String) : Bool := containsL sub.data hay.data

/-- Case-insensitive containment: `re.search(sub, hay, re.IGNORECASE)`
for a literal `sub` (written lowercase). -/
def icontains (hay : String) (sub : String) : Bool :=
  containsL sub.data (lowerL hay.data)

/-- Python `str.strip()` on the left only. -/
def dropWsL (l : List Char) : List Char := l.dropWhile isWsC

/-- Python `str.strip()`: strip leading and trailing whitespace. -/
def stripL (l : List Char) : List Char :=
  ((l.dropWhile isWsC).reverse.dropWhile isWsC).reverse

def stripS (s : String) : String := String.mk (stripL s.data)

/-- Python `re.sub(r"\s+", " ", ...)`: collapse each whitespace run to one space. -/
def collapseWs : List Char → List Char
  | [] => []
  | [c] => if isWsC c then [' '] else [c]
  | c :: d :: rest =>
    if isWsC c && isWsC d then collapseWs (d :: rest)
    else (if isWsC c then ' ' else c) :: collapseWs (d :: rest)

def collapseS (s : String) : String := String.mk (collapseWs s.data)

/-- One-pass model of `re.sub(r"\[.*?\]", "", name)` (non-greedy, `.` does not
match a newline): `inBr` says we are buffering after an unmatched `[`,
`buf` holds the buffered chars in reverse for flushing when no `]` arrives
before a newline or the end of input. -/
def sbGo : List Char → Bool → List Char → List Char
  | [], inBr, buf => if inBr then buf.reverse else []
  | c :: rest, false, _ =>
    if c = '[' then sbGo rest true ['[']
    else c :: sbGo rest false []
  | c :: rest, true, buf =>
    if c = ']' then sbGo rest false []
    else if c = '\n' then buf.reverse ++ '\n' :: sbGo rest false []
    else sbGo rest true (c :: buf)

def stripBrackets (l : List Char) : List Char := sbGo l false []

/-- Decimal value of a digit-char list (most significant first). -/
def natOfDigits (l : List Char) : Nat := l.foldl (fun acc c => acc * 10 + charVal c) 0

/-- Association lookup on char-list keys (models Python dict lookup). -/
def alookup {α : Type} : List (List Char × α) → List Char → Option α
  | [], _ => none
  | (k, v) :: rest, x => if x = k then some v else alookup rest x

/-! ## Regex scanners

Each Python regex the script uses is implemented as a leftmost scanner:
a matcher tries the pattern at the current position and the scanner advances
one character on failure, exactly like `re.search`.  `\b` boundaries are
tracked by carrying the previous character. -/

/-- Word-boundary after a word character: next char absent or non-word. -/
def bAfter : List Char → Bool
  | [] => true
  | e :: _ => !isWordC e

/-- Word-boundary before a word character: previous char absent or non-word. -/
def bBefore : Option Char → Bool
  | none => true
  | some p => !isWordC p

/-- Matcher for `\d{1}:\d{2}` with trailing `\b` at the current position. -/
def timeMatchAt1 (l : List Char) : Option (Nat × Nat × List Char) :=
  match l with
  | a :: ':' :: m1 :: m2 :: rest =>
    if isDigitC a && isDigitC m1 && isDigitC m2 && bAfter rest then
      some (charVal a, charVal m1 * 10 + charVal m2, [a, ':', m1, m2])
    else none
  | _ => none

/-- Matcher for `\d{1,2}:\d{2}` (greedy hour) with trailing `\b`. -/
def timeMatchAt (l : List Char) : Option (Nat × Nat × List Char) :=
  match l with
  | a :: b :: ':' :: m1 :: m2 :: rest =>
    if isDigitC a && isDigitC b && isDigitC m1 && isDigitC m2 && bAfter rest then
      some (charVal a * 10 + charVal b, charVal m1 * 10 + charVal m2, [a, b, ':', m1, m2])
    else timeMatchAt1 l
  | _ => timeMatchAt1 l

/-- `re.search(r"\b(\d{1,2}:\d{2})\b", ...)`: hour, minute, matched text. -/
def timeSearchGo : Option Char → List Char → Option (Nat × Nat × List Char)
  | _, [] => none
  | prev, c :: rest =>
    match (if bBefore prev then timeMatchAt (c :: rest) else none) with
    | some r => some r
    | none => timeSearchGo (some c) rest

def timeSearch (s : String) : Option (Nat × Nat × List Char) := timeSearchGo none s.data

/-- Matcher for `(\d+)\s*[–-]\s*(\d+)` at the current position. -/
def scoreMatchAt (l : List Char) : Option (Nat × Nat) :=
  let p1 := splitWhile isDigitC l
  if p1.1.isEmpty then none else
  match p1.2.dropWhile isWsC with
  | c :: r3 =>
    if c = '–' || c = '-' then
      let p2 := splitWhile isDigitC (r3.dropWhile isWsC)
      if p2.1.isEmpty then none else some (natOfDigits p1.1, natOfDigits p2.1)
    else none
  | [] => none

/-- `re.search(r"(\d+)\s*[–-]\s*(\d+)", ...)`: the two scores. -/
def scoreSearchGo : List Char → Option (Nat × Nat)
  | [] => none
  | c :: rest =>
    match scoreMatchAt (c :: rest) with
    | some r => some r
    | none => scoreSearchGo rest

def scoreSearch (s : String) : Option (Nat × Nat) := scoreSearchGo s.data

/-- Matcher for `\d{1,2}\s+[A-Za-z]+\s+20\d{2}` with trailing `\b`
(the plain-text strategy's date token), returning the matched token. -/
def dateTok3At (l : List Char) : Option (List Char) :=
  let p1 := splitWhile isDigitC l
  if p1.1.isEmpty || decide (p1.1.length > 2) then none else
  let p2 := splitWhile isWsC p1.2
  if p2.1.isEmpty then none else
  let p3 := splitWhile isAlphaC p2.2
  if p3.1.isEmpty then none else
  let p4 := splitWhile isWsC p3.2
  if p4.1.isEmpty then none else
  match p4.2 with
  | '2' :: '0' :: a :: b :: rest =>
    if isDigitC a && isDigitC b && bAfter rest then
      some (p1.1 ++ p2.1 ++ p3.1 ++ p4.1 ++ ['2', '0', a, b])
    else none
  | _ => none

/-- `re.search(r"\b(\d{1,2}\s+[A-Za-z]+\s+20\d{2})\b", ...)`. -/
def dateTok3Go : Option Char → List Char → Option (List Char)
  | _, [] => none
  | prev, c :: rest =>
    match (if bBefore prev then dateTok3At (c :: rest) else none) with
    | some tok => some tok
    | none => dateTok3Go (some c) rest

def dateTok3 (s : String) : Option (List Char) := dateTok3Go none s.data

/-- Matcher for `\d{1,2}\s+[A-Za-z]+\s+2026` (the vevent strategy's date
token; no word boundaries in the source pattern). -/
def vevDateAt (l : List Char) : Option (List Char) :=
  let p1 := splitWhile isDigitC l
  if p1.1.isEmpty || decide (p1.1.length > 2) then none else
  let p2 := splitWhile isWsC p1.2
  if p2.1.isEmpty then none else
  let p3 := splitWhile isAlphaC p2.2
  if p3.1.isEmpty then none else
  let p4 := splitWhile isWsC p3.2
  if p4.1.isEmpty then none else
  if leadsWith ['2', '0', '2', '6'] p4.2 then
    some (p1.1 ++ p2.1 ++ p3.1 ++ p4.1 ++ ['2', '0', '2', '6'])
  else none

/-- `re.search(r"(\d{1,2}\s+[A-Za-z]+\s+2026)", ...)`. -/
def vevDateGo : List Char → Option (List Char)
  | [] => none
  | c :: rest =>
    match vevDateAt (c :: rest) with
    | some tok => some tok
    | none => vevDateGo rest

def vevDateTok (s : String) : Option (List Char) := vevDateGo s.data

/-- Matcher for `\d{1,2}\s+February\s+2026` (the wikitext strategy's
date token). -/
def wtDateAt (l : List Char) : Option (List Char) :=
  let p1 := splitWhile isDigitC l
  if p1.1.isEmpty || decide (p1.1.length > 2) then none else
  let p2 := splitWhile isWsC p1.2
  if p2.1.isEmpty then none else
  if leadsWith "February".data p2.2 then
    let r3 := p2.2.drop 8
    let p4 := splitWhile isWsC r3
    if p4.1.isEmpty then none else
    if leadsWith ['2', '0', '2', '6'] p4.2 then
      some (p1.1 ++ p2.1 ++ "February".data ++ p4.1 ++ ['2', '0', '2', '6'])
    else none
  else none

/-- `re.search(r"(\d{1,2}\s+February\s+2026)", ...)`. -/
def wtDateGo : List Char → Option (List Char)
  | [] => none
  | c :: rest =>
    match wtDateAt (c :: rest) with
    | some tok => some tok
    | none => wtDateGo rest

def wtDateTok (s : String) : Option (List Char) := wtDateGo s.data

/-- `\s+` then `[A-Z]`: the tail of the `Group\s+([A-Z])` pattern. -/
def wsu2 : List Char → Option Char
  | [] => none
  | c :: rest => if isWsC c then wsu2 rest else if isUpperC c then some c else none

def wsThenUpper : List Char → Option Char
  | [] => none
  | c :: rest => if isWsC c then wsu2 rest else none

/-- `re.search(r"Group\s+([A-Z])", ...)`: the captured group letter. -/
def groupLetterGo : List Char → Option Char
  | [] => none
  | 'G' :: rest =>
    (match rest with
     | 'r' :: 'o' :: 'u' :: 'p' :: rest2 =>
       (match wsThenUpper rest2 with
        | some c => some c
        | none => groupLetterGo rest)
     | _ => groupLetterGo rest)
  | _ :: rest => groupLetterGo rest

def groupLetter (s : String) : Option Char := groupLetterGo s.data

/-- Matcher for `\bGroup\s+[A-Z]\b` (boundary-anchored variant used as the
plain-text strategy's group-line test). -/
def groupHdrAt (l : List Char) : Bool :=
  match l with
  | 'G' :: 'r' :: 'o' :: 'u' :: 'p' :: rest =>
    (match splitWhile isWsC rest with
     | ([], _) => false
     | (_ :: _, r2) =>
       match r2 with
       | c :: r3 => isUpperC c && bAfter r3
       | [] => false)
  | _ => false

def groupHdrGo : Option Char → List Char → Bool
  | _, [] => false
  | prev, c :: rest => (bBefore prev && groupHdrAt (c :: rest)) || groupHdrGo (some c) rest

def groupHdrB (s : String) : Bool := groupHdrGo none s.data

/-- `re.finditer` over a `tag...([^}|]+)` pattern: collect the non-empty
captures of non-overlapping matches left to right.  The `Nat` argument
skips the remainder of the previous match. -/
def findTagCapsGo (tag : List Char) : Nat → List Char → List (List Char)
  | _, [] => []
  | 0, c :: rest =>
    if leadsWith tag (c :: rest) then
      let r1 := (c :: rest).drop tag.length
      let cap := r1.takeWhile (fun ch => ch ≠ '\x7d' && ch ≠ '|')
      if cap.isEmpty then findTagCapsGo tag 0 rest
      else cap :: findTagCapsGo tag (tag.length + cap.length - 1) rest
    else findTagCapsGo tag 0 rest
  | n + 1, _ :: rest => findTagCapsGo tag n rest

def findTagCaps (tag : List Char) (l : List Char) : List (List Char) :=
  findTagCapsGo tag 0 l

/-! ## Modelled external date parser

`dateutil.parser.parse` is a third-party collaborator, not repository code.
It is modelled as an executable parser for exactly the token shapes the
script feeds it: `D Month [YYYY] [H:MM]` (a missing year yields the
default year 1900 — the "ambiguous/default-year parse" the spec describes)
and the script's own round-trip format `YYYY-MM-DD H:MM`
(from `f"{current_date.date()} {time_str}"`).  Out-of-range fields, which
make the real parser raise `ValueError`, yield `none`. -/

structure PyDateTime where
  year : Nat
  month : Nat
  day : Nat
  hour : Nat
  minute : Nat
deriving DecidableEq, Repr

/-- An entire `\d{1,2}:\d{2}` time word, range-checked. -/
def timeWordVal (l : List Char) : Option (Nat × Nat) :=
  match l with
  | [a, b, ':', m1, m2] =>
    if isDigitC a && isDigitC b && isDigitC m1 && isDigitC m2 then
      let h := charVal a * 10 + charVal b
      let mi := charVal m1 * 10 + charVal m2
      if h < 24 && mi < 60 then some (h, mi) else none
    else none
  | [a, ':', m1, m2] =>
    if isDigitC a && isDigitC m1 && isDigitC m2 then
      let mi := charVal m1 * 10 + charVal m2
      if charVal a < 24 && mi < 60 then some (charVal a, mi) else none
    else none
  | _ => none

/-- `YYYY-MM-DD [H:MM]`. -/
def parseISO (l : List Char) : Option PyDateTime :=
  match l with
  | a :: b :: c :: d :: e :: f :: g :: h :: i :: j :: rest =>
    if isDigitC a && isDigitC b && isDigitC c && isDigitC d && (e == '-') &&
       isDigitC f && isDigitC g && (h == '-') && isDigitC i && isDigitC j then
      let y := natOfDigits [a, b, c, d]
      let mo := natOfDigits [f, g]
      let dd := natOfDigits [i, j]
      if 1 ≤ mo && mo ≤ 12 && 1 ≤ dd && dd ≤ 31 then
        match rest with
        | [] => some ⟨y, mo, dd, 0, 0⟩
        | ' ' :: t =>
          (match timeWordVal t with
           | some (hh, mm) => some ⟨y, mo, dd, hh, mm⟩
           | none => none)
        | _ => none
      else none
    else none
  | _ => none

def monthNames : List (List Char × Nat) :=
  [("january".data, 1), ("february".data, 2), ("march".data, 3),
   ("april".data, 4), ("may".data, 5), ("june".data, 6),
   ("july".data, 7), ("august".data, 8), ("september".data, 9),
   ("october".data, 10), ("november".data, 11), ("december".data, 12),
   ("jan".data, 1), ("feb".data, 2), ("mar".data, 3), ("apr".data, 4),
   ("jun".data, 6), ("jul".data, 7), ("aug".data, 8), ("sep".data, 9),
   ("oct".data, 10), ("nov".data, 11), ("dec".data, 12)]

def monthOf (w : List Char) : Option Nat := alookup monthNames (lowerL w)

/-- `D Month`, `D Month YYYY`, `D Month H:MM`, `D Month YYYY H:MM`;
a missing year defaults to 1900. -/
def parseDMY (l : List Char) : Option PyDateTime :=
  let p1 := splitWhile isDigitC l
  if p1.1.isEmpty || decide (p1.1.length > 2) then none else
  let day := natOfDigits p1.1
  if !(decide (1 ≤ day) && decide (day ≤ 31)) then none else
  let p2 := splitWhile isWsC p1.2
  if p2.1.isEmpty then none else
  let p3 := splitWhile isAlphaC p2.2
  match monthOf (lowerL p3.1) with
  | none => none
  | some mo =>
    match p3.2 with
    | [] => some ⟨1900, mo, day, 0, 0⟩
    | c4 :: r4 =>
      let p4 := splitWhile isWsC (c4 :: r4)
      if p4.1.isEmpty then none else
      let p5 := splitWhile isDigitC p4.2
      if decide (p5.1.length = 4) then
        let y := natOfDigits p5.1
        match p5.2 with
        | [] => some ⟨y, mo, day, 0, 0⟩
        | c6 :: r6 =>
          let p6 := splitWhile isWsC (c6 :: r6)
          if p6.1.isEmpty then none else
          match timeWordVal p6.2 with
          | some (hh, mm) => some ⟨y, mo, day, hh, mm⟩
          | none => none
      else
        match timeWordVal p4.2 with
        | some (hh, mm) => some ⟨1900, mo, day, hh, mm⟩
        | none => none

def dateutil_parse_chars (l : List Char) : Option PyDateTime :=
  match parseISO l with
  | some d => some d
  | none => parseDMY l

def dateutil_parse (s : String) : Option PyDateTime := dateutil_parse_chars s.data

def pad2 (n : Nat) : List Char := [digitChar (n / 10), digitChar (n % 10)]

def pad4 (n : Nat) : List Char :=
  [digitChar (n / 1000), digitChar (n / 100 % 10), digitChar (n / 10 % 10), digitChar (n % 10)]

/-- `str(current_date.date())`: the `YYYY-MM-DD` rendering. -/
def isoChars (d : PyDateTime) : List Char :=
  pad4 d.year ++ '-' :: (pad2 d.month ++ '-' :: pad2 d.day)

def YEAR : Nat := 2026

/-- `if dt.year == 1900: dt = dt.replace(year=YEAR)` (shared edge-case policy). -/
def fixYear (d : PyDateTime) : PyDateTime :=
  if d.year = 1900 then { d with year := YEAR } else d

/-! ## Static configuration tables (lines 22-132 of the source) -/

def TEAM_CZ : String := "CZE"

/-- Dict lookup on string keys. -/
def dget {α : Type} : List (String × α) → String → Option α
  | [], _ => none
  | (k, v) :: rest, x => if x = k then some v else dget rest x

def TEAM_NAMES_CZ : List (String × String) :=
  [("CZE", "Česko"), ("FIN", "Finsko"), ("SWE", "Švédsko"), ("USA", "USA"),
   ("CAN", "Kanada"), ("SUI", "Švýcarsko"), ("GER", "Německo"),
   ("SVK", "Slovensko"), ("LAT", "Lotyšsko"), ("DEN", "Dánsko"),
   ("NOR", "Norsko"), ("AUT", "Rakousko"), ("FRA", "Francie"),
   ("ITA", "Itálie"), ("JPN", "Japonsko"), ("CHN", "Čína"),
   ("KOR", "Jižní Korea")]

def TEAM_FLAGS : List (String × String) :=
  [("CZE", "🇨🇿"), ("FIN", "🇫🇮"), ("SWE", "🇸🇪"), ("USA", "🇺🇸"),
   ("CAN", "🇨🇦"), ("SUI", "🇨🇭"), ("GER", "🇩🇪"), ("SVK", "🇸🇰"),
   ("LAT", "🇱🇻"), ("DEN", "🇩🇰"), ("NOR", "🇳🇴"), ("AUT", "🇦🇹"),
   ("FRA", "🇫🇷"), ("ITA", "🇮🇹"), ("JPN", "🇯🇵"), ("CHN", "🇨🇳"),
   ("KOR", "🇰🇷")]

def TEAM_CODE_ALIASES : List (String × String) :=
  [("Czech Republic", "CZE"), ("Czechia", "CZE"),
   ("Czech Republic (CZE)", "CZE"), ("Finland", "FIN"), ("Sweden", "SWE"),
   ("United States", "USA"), ("United States of America", "USA"),
   ("Canada", "CAN"), ("Switzerland", "SUI"), ("Germany", "GER"),
   ("Slovakia", "SVK"), ("Latvia", "LAT"), ("Denmark", "DEN"),
   ("Norway", "NOR"), ("Austria", "AUT"), ("France", "FRA"),
   ("Italy", "ITA"), ("Japan", "JPN"), ("China", "CHN"),
   ("South Korea", "KOR")]

/-- `{k.lower(): v for k, v in TEAM_CODE_ALIASES.items()}`. -/
def TEAM_ALIAS_LOOKUP : List (List Char × String) :=
  TEAM_CODE_ALIASES.map (fun kv => (lowerL kv.1.data, kv.2))

def PHASE_CZ : List (String × String) :=
  [("preliminary", "Skupina"), ("quarterfinals", "Čtvrtfinále"),
   ("semifinals", "Semifinále"), ("bronze", "O bronz"), ("gold", "Finále")]

def PLAYOFF_PHASES : List String := ["quarterfinals", "semifinals", "bronze", "gold"]

def GENDER_EMOJI : List (String × String) := [("women", "👩"), ("men", "👨")]

def MEDAL_EMOJI : List (String × String) := [("bronze", "🥉"), ("gold", "🥇")]

/-! ## The Game record (dataclass, lines 135-149) -/

structure Game where
  category : String
  start : PyDateTime
  team1 : String
  team2 : String
  phase_key : String
  phase_label : String
  group_label : Option String
  venue : Option String
  gamecenter : Option String := none
  score1 : Option Nat := none
  score2 : Option Nat := none
  status_suffix : Option String := none
  playoff_index : Option Nat := none
deriving DecidableEq, Repr

/-! ## normalize_team_name (lines 193-205) -/

/-- `re.search(r"\b([A-Z]{3})\b", ...)`: leftmost three-uppercase-letter
token with word boundaries on both sides. -/
def find3Go : Option Char → List Char → Option (List Char)
  | _, [] => none
  | prev, a :: rest =>
    match rest with
    | b :: c :: rest2 =>
      if isUpperC a && isUpperC b && isUpperC c && bBefore prev && bAfter rest2 then
        some [a, b, c]
      else find3Go (some a) rest
    | _ => none

def tbdL : List Char := ['T', 'B', 'D']

/-- `re.sub(r"\s+", " ", re.sub(r"\[.*?\]", "", name)).strip()`. -/
def cleanedOf (name : List Char) : List Char := stripL (collapseWs (stripBrackets name))

def ntnL (name : List Char) : List Char :=
  if name = [] then tbdL else
  if cleanedOf name = [] then tbdL else
  match alookup TEAM_ALIAS_LOOKUP (lowerL (cleanedOf name)) with
  | some code => code.data
  | none =>
    match find3Go none (cleanedOf name) with
    | some m => m
    | none => tbdL

def normalize_team_name (name : String) : String := String.mk (ntnL name.data)

/-! ## Display helpers and build_summary (lines 730-775) -/

def team_display_with_flag (code : String) : String :=
  if code = "TBD" then "TBD 🏒" else
  let name := (dget TEAM_NAMES_CZ code).getD code
  match dget TEAM_FLAGS code with
  | some flag => flag ++ " " ++ name
  | none => name

def summary_prefix (g : Game) : String :=
  let emoji := (dget GENDER_EMOJI g.category).getD ""
  let medal := (dget MEDAL_EMOJI g.phase_key).getD ""
  let pparts := [emoji, medal].filter (fun p => p ≠ "")
  if pparts ≠ [] then String.intercalate " " pparts ++ " " else ""

def build_summary (g : Game) : String :=
  let pre := summary_prefix g
  if g.phase_key ∈ PLAYOFF_PHASES ∧ (g.team1 = "TBD" ∨ g.team2 = "TBD") then
    -- `index = game.playoff_index or 1`: `None` and `0` are falsy in Python.
    let index := match g.playoff_index with
      | some k => if k = 0 then 1 else k
      | none => 1
    -- `PHASE_CZ[game.phase_key]`: total model of the dict indexing; the
    -- guard restricts the key to the playoff set, which is in the table.
    pre ++ (dget PHASE_CZ g.phase_key).getD "" ++ " " ++ toString index
  else
    let t1 := team_display_with_flag g.team1
    let t2 := team_display_with_flag g.team2
    let s := pre ++ t1 ++ " – " ++ t2
    match g.score1, g.score2, g.status_suffix with
    | some a, some b, some suf =>
      -- `and game.status_suffix` is a truthiness test: "" is falsy.
      if suf ≠ "" then s ++ " " ++ toString a ++ ":" ++ toString b ++ " (" ++ suf ++ ")"
      else s
    | _, _, _ => s

/-! ## should_include and assign_playoff_indices (lines 748-759) -/

def should_include (g : Game) : Bool :=
  if g.phase_key ∈ PLAYOFF_PHASES then true
  else decide (g.team1 = TEAM_CZ ∨ g.team2 = TEAM_CZ)

/-- Order-preserving numeric key of a datetime; lexicographic on
(year, month, day, hour, minute) for the in-range field values the date
parser produces.  Models Python datetime comparison. -/
def dtKey (d : PyDateTime) : Nat :=
  (((d.year * 100 + d.month) * 100 + d.day) * 100 + d.hour) * 100 + d.minute

def gameLe (a b : Game) : Prop := dtKey a.start ≤ dtKey b.start

instance : DecidableRel gameLe := fun _ _ => Nat.decLe _ _

def enumLe (a b : Nat × Game) : Prop := dtKey a.2.start ≤ dtKey b.2.start

instance : DecidableRel enumLe := fun _ _ => Nat.decLe _ _

def nlookup : List (Nat × Nat) → Nat → Option Nat
  | [], _ => none
  | (k, v) :: rest, x => if x = k then some v else nlookup rest x

/-- `counters = {k: 0 for k in PLAYOFF_PHASES}` with `counters[phase] += 1`. -/
def bumpAt (c : String → Nat) (p : String) : String → Nat :=
  fun q => if q = p then c p + 1 else c q

/-- Walk the games in sorted order, numbering playoff games per phase;
returns position ↦ assigned index (positions identify the mutated objects). -/
def buildIdx : List (Nat × Game) → (String → Nat) → List (Nat × Nat)
  | [], _ => []
  | (i, g) :: rest, c =>
    if g.phase_key ∈ PLAYOFF_PHASES then
      (i, c g.phase_key + 1) :: buildIdx rest (bumpAt c g.phase_key)
    else buildIdx rest c

/-- The write-back of one enumerated game: an assigned index is stored on
the game, others are untouched (lines 757-759). -/
def applyIdx (m : List (Nat × Nat)) (ig : Nat × Game) : Game :=
  match nlookup m ig.1 with
  | some k => { ig.2 with playoff_index := some k }
  | none => ig.2

/-- In-place mutation over `sorted(games, key=lambda g: g.start)` modelled by
enumerating positions, numbering along the stable sorted order, and writing
the indices back; games outside the playoff set are untouched. -/
def assign_playoff_indices (games : List Game) : List Game :=
  let sortedE := List.insertionSort enumLe games.enum
  let m := buildIdx sortedE (fun _ => 0)
  games.enum.map (applyIdx m)

/-! ## Strategy 1: structured wikitables (lines 245-355)

BeautifulSoup is external: a table is modelled as its caption text, the
texts of all its `th` cells, and the cell-text lists of all its `tr` rows. -/

structure WikiTable where
  caption : String
  headers : List String
  rows : List (List String)
deriving Repr

structure HeaderIdxs where
  date_idx : Option Nat := none
  time_idx : Option Nat := none
  venue_idx : Option Nat := none
  team1_idx : Option Nat := none
  team2_idx : Option Nat := none
deriving Repr

/-- Column detection over the lowercased header texts (lines 259-271):
date/time/venue keep the first hit, the team columns keep the last. -/
def hFold : List (Nat × String) → HeaderIdxs → HeaderIdxs
  | [], s => s
  | (idx, h) :: rest, s =>
    let s1 := if s.date_idx = none ∧ containsSub h "date" then { s with date_idx := some idx } else s
    let s2 := if s1.time_idx = none ∧ containsSub h "time" then { s1 with time_idx := some idx } else s1
    let s3 := if s2.venue_idx = none ∧ containsSub h "venue" then { s2 with venue_idx := some idx } else s2
    let s4 := if containsSub h "home" ∨ containsSub h "team 1" then { s3 with team1_idx := some idx } else s3
    let s5 := if containsSub h "away" ∨ containsSub h "team 2" then { s4 with team2_idx := some idx } else s4
    hFold rest s5

def headerIdxs (headers : List String) : HeaderIdxs :=
  hFold ((headers.map lowerS).enum) {}

/-- `texts[i] if i is not None and i < len(texts) else ""`. -/
def cellAt (texts : List String) : Option Nat → String
  | some i => (texts.get? i).getD ""
  | none => ""

/-- `texts[i] if i is not None and i < len(texts) else None`. -/
def cellAtOpt (texts : List String) : Option Nat → Option String
  | some i => texts.get? i
  | none => none

/-- Lines 286-297: the current-date update from a row's date cell;
a failed parse keeps the previous current date. -/
def tableDateUpdate (raw_date : String) (cur : Option PyDateTime) : Option PyDateTime :=
  if raw_date = "" then cur else
  let rd :=
    if lowerS (stripS raw_date) = "date" ∨ lowerS (stripS raw_date) = "datum" then ""
    else raw_date
  if rd = "" then cur else
  match dateutil_parse rd with
  | some dt => some (fixYear dt)
  | none => cur

/-- Lines 308-318: keyword phase detection, first match wins. -/
def phaseOfText (t : String) : String :=
  if icontains t "quarterfinal" then "quarterfinals"
  else if icontains t "semifinal" then "semifinals"
  else if icontains t "bronze" then "bronze"
  else if icontains t "gold" || icontains t "final" then "gold"
  else "preliminary"

def groupLabelOf (t : String) : Option String :=
  match groupLetter t with
  | some c => some ("Skupina " ++ String.mk [c])
  | none => none

/-- Lines 330-336: scan all cells for recognizable team codes, first
occurrence order, deduplicated. -/
def collectCodes : List String → List String → List String
  | [], acc => acc
  | t :: rest, acc =>
    let code := normalize_team_name t
    if code ≠ "TBD" ∧ code ∉ acc then collectCodes rest (acc ++ [code])
    else collectCodes rest acc

/-- The game record a table row emits (lines 306-351), given the start
time resolved for the row. -/
def tableGameOf (hi : HeaderIdxs) (caption category : String) (texts : List String)
    (start : PyDateTime) : Game :=
  let row_text := String.intercalate " " texts
  let phase_text := caption ++ " " ++ row_text
  let phase_key := phaseOfText phase_text
  let group_label := groupLabelOf phase_text
  let team1a := match cellAtOpt texts hi.team1_idx with
    | some t => normalize_team_name t
    | none => "TBD"
  let team2a := match cellAtOpt texts hi.team2_idx with
    | some t => normalize_team_name t
    | none => "TBD"
  let tp :=
    if team1a = "TBD" ∨ team2a = "TBD" then
      match collectCodes texts [] with
      | f1 :: f2 :: _ => (f1, f2)
      | _ => (team1a, team2a)
    else (team1a, team2a)
  { category := category, start := start, team1 := tp.1, team2 := tp.2,
    phase_key := phase_key, phase_label := (dget PHASE_CZ phase_key).getD "Skupina",
    group_label := group_label, venue := cellAtOpt texts hi.venue_idx }

/-- One `tr` row (lines 274-351): returns the updated current date and the
emitted game, if any. -/
def tableRowStep (hi : HeaderIdxs) (caption category : String)
    (cur : Option PyDateTime) (texts : List String) : Option PyDateTime × Option Game :=
  if texts = [] then (cur, none) else
  let row_text := String.intercalate " " texts
  if row_text = "" ∨ containsSub (lowerS row_text) "schedule" then (cur, none) else
  let raw_date := cellAt texts hi.date_idx
  let raw_time := cellAt texts hi.time_idx
  let cur2 := tableDateUpdate raw_date cur
  match timeSearch (if raw_time ≠ "" then raw_time else row_text), cur2 with
  | some (_, _, timeText), some cd =>
    (match dateutil_parse (String.mk (isoChars cd ++ ' ' :: timeText)) with
     | none => (cur2, none)
     | some dt =>
       (cur2, some (tableGameOf hi caption category texts
         ⟨dt.year, dt.month, dt.day, dt.hour, dt.minute⟩)))
  | _, _ => (cur2, none)

def tableRowsGames (hi : HeaderIdxs) (caption category : String) :
    Option PyDateTime → List (List String) → List Game
  | _, [] => []
  | cur, texts :: rest =>
    let r := tableRowStep hi caption category cur texts
    (match r.2 with | some g => [g] | none => []) ++ tableRowsGames hi caption category r.1 rest

/-- The structured-table strategy (the wikitable scan of
`parse_wikipedia_schedule`, lines 251-353). -/
def parse_wikipedia_tables (tables : List WikiTable) (category : String) : List Game :=
  (tables.map (fun t => tableRowsGames (headerIdxs t.headers) t.caption category none t.rows)).flatten

/-! ## Strategy 2: vevent micro-format rows (lines 504-608)

A `table.vevent tr.summary` row is modelled by its `td` texts, the
(id, text) of its nearest preceding h2/h3 heading, and the first anchor
href of its date cell. -/

structure VEventRow where
  cells : List String
  heading : Option (String × String)
  anchorHref : Option String
deriving Repr

/-- Lines 508-527. -/
def infer_phase_from_heading : Option (String × String) → String × Option String
  | none => ("preliminary", none)
  | some (hid, htext) =>
    let heading_id := lowerS hid
    let heading_text := lowerS htext
    if containsSub heading_id "group_a" || containsSub heading_text "group a" then
      ("preliminary", some "Skupina A")
    else if containsSub heading_id "group_b" || containsSub heading_text "group b" then
      ("preliminary", some "Skupina B")
    else if containsSub heading_id "quarter" || containsSub heading_text "quarter" then
      ("quarterfinals", none)
    else if containsSub heading_id "semi" || containsSub heading_text "semi" then
      ("semifinals", none)
    else if containsSub heading_id "bronze" || containsSub heading_text "bronze" then
      ("bronze", none)
    else if containsSub heading_id "gold" || containsSub heading_text "gold" ||
            containsSub heading_id "final" || containsSub heading_text "final" then
      ("gold", none)
    else ("preliminary", none)

/-- Heading-based phase with the anchor-based override (lines 567-590). -/
def vevPhase (r : VEventRow) (anchor_text : String) : String × Option String :=
  let base := infer_phase_from_heading r.heading
  let anchor_id := match r.anchorHref with
    | some href => if leadsWith "#".data href.data then String.mk (href.data.drop 1) else ""
    | none => ""
  let anchor_key := lowerS anchor_id
  let at_lower := lowerS anchor_text
  if containsSub anchor_key "group_a" || containsSub at_lower "group a" then
    ("preliminary", some "Skupina A")
  else if containsSub anchor_key "group_b" || containsSub at_lower "group b" then
    ("preliminary", some "Skupina B")
  else if containsSub anchor_key "quarter" then ("quarterfinals", none)
  else if containsSub anchor_key "semi" then ("semifinals", none)
  else if containsSub anchor_key "bronze" then ("bronze", none)
  else if containsSub anchor_key "gold" || containsSub anchor_key "final" then ("gold", none)
  else base

/-- The game record a summary row emits (lines 543-606). -/
def vevGameOf (category : String) (r : VEventRow) (c0 c1 c2 c3 : String)
    (rest : List String) (start : PyDateTime) : Game :=
  let team1 := normalize_team_name c1
  let team2 := normalize_team_name c3
  let sc := scoreSearch c2
  let status_suffix := match sc with
    | none => none
    | some _ =>
      if icontains c2 "gws" || icontains c2 "so" then some "SO"
      else if icontains c2 "ot" then some "OT"
      else some "FT"
  let location := (rest.get? 0).getD ""
  let venue := if location ≠ "" then some location else none
  let pg := vevPhase r c0
  { category := category, start := start, team1 := team1, team2 := team2,
    phase_key := pg.1, phase_label := (dget PHASE_CZ pg.1).getD "Skupina",
    group_label := pg.2, venue := venue, score1 := sc.map (·.1),
    score2 := sc.map (·.2), status_suffix := status_suffix }

/-- One summary row (lines 529-606). -/
def vevRowGames (category : String) (r : VEventRow) : List Game :=
  match r.cells with
  | c0 :: c1 :: c2 :: c3 :: rest =>
    (match vevDateTok c0, timeSearch c0 with
     | some dtok, some (_, _, ttext) =>
       (match dateutil_parse (String.mk (dtok ++ ' ' :: ttext)) with
        | none => []
        | some dt =>
          [vevGameOf category r c0 c1 c2 c3 rest
            ⟨dt.year, dt.month, dt.day, dt.hour, dt.minute⟩])
     | _, _ => [])
  | _ => []

def parse_wikipedia_vevents (rows : List VEventRow) (category : String) : List Game :=
  (rows.map (vevRowGames category)).flatten

/-! ## Strategy 3: plain rendered text (lines 372-501) -/

structure TextCtx where
  curDate : Option PyDateTime := none
  curTime : Option (Nat × Nat) := none
  curPhase : String := "preliminary"
  curGroup : Option String := none
deriving Repr

/-- Lines 376-377: strip, drop empty, collapse whitespace per line.  The
`soup.get_text("\n").splitlines()` extraction is the external HTML layer. -/
def deriveLines (rawLines : List String) : List String :=
  ((rawLines.map stripS).filter (fun l => stripS l ≠ "")).map collapseS

def lenGe (a b : String) : Prop := b.length ≤ a.length

instance : DecidableRel lenGe := fun _ _ => Nat.decLe _ _

/-- `sorted(TEAM_ALIAS_LOOKUP.keys(), key=len, reverse=True) + ["tbd"]`
(stable descending by length, line 379-380). -/
def team_names : List String :=
  (List.insertionSort lenGe (TEAM_ALIAS_LOOKUP.map (fun kv => String.mk kv.1))) ++ ["tbd"]

def venues : List String := ["PalaItalia", "Fiera Milano", "PalaItalia Santa Giulia"]

/-- `re.fullmatch(r"\d{1,2}:\d{2}", line)` with the two int conversions. -/
def timeFull (s : String) : Option (Nat × Nat) :=
  match s.data with
  | [a, b, ':', m1, m2] =>
    if isDigitC a && isDigitC b && isDigitC m1 && isDigitC m2 then
      some (charVal a * 10 + charVal b, charVal m1 * 10 + charVal m2)
    else none
  | [a, ':', m1, m2] =>
    if isDigitC a && isDigitC m1 && isDigitC m2 then
      some (charVal a, charVal m1 * 10 + charVal m2)
    else none
  | _ => none

/-- Lines 448-454: for each alias name, record its first occurrence index. -/
def collectPositions (lower : List Char) : List String → List (Nat × String)
  | [] => []
  | n :: rest =>
    match findSubIdx n.data lower with
    | some i => (i, n) :: collectPositions lower rest
    | none => collectPositions lower rest

def posLe (a b : Nat × String) : Prop := a.1 ≤ b.1

instance : DecidableRel posLe := fun _ _ => Nat.decLe _ _

/-- Shared by strategies 3 and 4 (lines 422-428 and 671-677): the current
date becomes the parse result (or `None`), with the 1900 default year
rewritten to the tournament year. -/
def parsedDateFixYear (tok : List Char) : Option PyDateTime :=
  match dateutil_parse_chars tok with
  | some d => some (fixYear d)
  | none => none

def venueIn (lower : String) : Option String :=
  venues.find? (fun v => containsL (lowerS v).data lower.data)

/-- The game record a candidate text line emits (lines 455-498), given the
context, the lookahead line and the start time from the current markers. -/
def textGameOf (category : String) (ctx : TextCtx) (line : String) (next? : Option String)
    (start : PyDateTime) : Game :=
  let lower := lowerS line
  let positions := collectPositions lower.data team_names
  let tp :=
    if containsSub lower "tbd v tbd" then ("TBD", "TBD")
    else
      match List.insertionSort posLe positions with
      | (_, n1) :: (_, n2) :: _ => (normalize_team_name n1, normalize_team_name n2)
      | _ => ("TBD", "TBD")
  let sc := scoreSearch line
  let venue := match venueIn lower with
    | some v => some v
    | none =>
      match next? with
      | some nl => venueIn (lowerS nl)
      | none => none
  { category := category, start := start, team1 := tp.1, team2 := tp.2,
    phase_key := ctx.curPhase, phase_label := (dget PHASE_CZ ctx.curPhase).getD "Skupina",
    group_label := ctx.curGroup, venue := venue,
    score1 := sc.map (·.1), score2 := sc.map (·.2) }

/-- The emission guard of the plain-text strategy, line 455:
`len(found) >= 2 or "tbd v tbd" in lower`. -/
def textGuard (line : String) : Bool :=
  decide (2 ≤ (collectPositions (lowerS line).data team_names).length) ||
    containsSub (lowerS line) "tbd v tbd"

/-- The line loop, lines 390-499; `rest.head?` plays `lines[i + 1]`. -/
def textLoop (category : String) : TextCtx → List String → List Game
  | _, [] => []
  | ctx, line :: rest =>
    if groupHdrB line then
      (match groupLetter line with
       | some c =>
         textLoop category
           { ctx with curGroup := some ("Skupina " ++ String.mk [c]),
                      curPhase := "preliminary" } rest
       | none => textLoop category ctx rest)
    else if icontains line "quarter-finals" || icontains line "quarterfinals" then
      textLoop category { ctx with curPhase := "quarterfinals", curGroup := none } rest
    else if icontains line "semi-finals" || icontains line "semifinals" then
      textLoop category { ctx with curPhase := "semifinals", curGroup := none } rest
    else if icontains line "bronze medal game" || icontains line "bronze" then
      textLoop category { ctx with curPhase := "bronze", curGroup := none } rest
    else if icontains line "gold medal game" || icontains line "gold" || icontains line "final" then
      textLoop category { ctx with curPhase := "gold", curGroup := none } rest
    else
      match dateTok3 line with
      | some tok => textLoop category { ctx with curDate := parsedDateFixYear tok } rest
      | none =>
        match timeFull line with
        | some hm => textLoop category { ctx with curTime := some hm } rest
        | none =>
          match ctx.curDate, ctx.curTime with
          | some cd, some ct =>
            let lower := lowerS line
            if containsSub lower "attendance" || containsSub lower "goalies" ||
               containsSub lower "referees" || containsSub lower "linesmen" then
              textLoop category ctx rest
            else
              if textGuard line then
                textGameOf category ctx line rest.head? ⟨cd.year, cd.month, cd.day, ct.1, ct.2⟩
                  :: textLoop category ctx rest
              else textLoop category ctx rest
          | _, _ => textLoop category ctx rest

def parse_wikipedia_schedule_text (textRaw : List String) (category : String) : List Game :=
  textLoop category {} (deriveLines textRaw)

/-! ## Strategy 4: raw wikitext via the API (lines 611-727)

The URL-to-title extraction, API fetch, and JSON envelope (lines 611-624)
are external I/O; the strategy is modelled from the extracted wikitext. -/

structure WtCtx where
  curPhase : String := "preliminary"
  curGroup : Option String := none
  curDate : Option PyDateTime := none
deriving Repr

def startsWithS (s p : String) : Bool := leadsWith p.data s.data

/-- Python `str.splitlines()` (newline-only model): a trailing newline
produces no trailing empty line. -/
def splitLinesGo : List Char → List Char → List String
  | [], [] => []
  | [], acc => [String.mk acc.reverse]
  | '\n' :: rest, acc => String.mk acc.reverse :: splitLinesGo rest []
  | c :: rest, acc => splitLinesGo rest (c :: acc)

def splitLines (s : String) : List String := splitLinesGo s.data []

/-- `update_context` (lines 632-651); the `===`-test and the `==`-test are
two sequential `if`s, both can run. -/
def wtUpdateContext (ctx : WtCtx) (line : String) : WtCtx :=
  let ctx1 :=
    if startsWithS line "===" then
      if containsSub line "Group " then
        match groupLetter line with
        | some c =>
          { ctx with curGroup := some ("Skupina " ++ String.mk [c]),
                     curPhase := "preliminary" }
        | none => ctx
      else ctx
    else ctx
  if startsWithS line "==" then
    if containsSub line "Quarter" then { ctx1 with curPhase := "quarterfinals", curGroup := none }
    else if containsSub line "Semi" then { ctx1 with curPhase := "semifinals", curGroup := none }
    else if containsSub line "Bronze" then { ctx1 with curPhase := "bronze", curGroup := none }
    else if containsSub line "Gold" || containsSub line "Final" then
      { ctx1 with curPhase := "gold", curGroup := none }
    else ctx1
  else ctx1

def flagPat : List Char := '\x7b' :: '\x7b' :: "flag|".data

def flagiconPat : List Char := '\x7b' :: '\x7b' :: "flagicon|".data

def flagcountryPat : List Char := '\x7b' :: '\x7b' :: "flagcountry|".data

/-- Lines 654-662: all captures of the three flag patterns, normalized,
`TBD` filtered out; fewer than two teams yields the dual-`TBD` pair. -/
def extract_teams (row_text : String) : String × String :=
  let caps := findTagCaps flagPat row_text.data ++ findTagCaps flagiconPat row_text.data ++
              findTagCaps flagcountryPat row_text.data
  let teams := (caps.map (fun c => normalize_team_name (String.mk c))).filter (fun t => t ≠ "TBD")
  match teams with
  | t1 :: t2 :: _ => (t1, t2)
  | _ => ("TBD", "TBD")

/-- The game record a wikitext row emits (lines 685-723). -/
def wtGameOf (category : String) (ctx2 : WtCtx) (row_text : String) (start : PyDateTime) : Game :=
  let tp := extract_teams row_text
  let sc := scoreSearch row_text
  let status_suffix := match sc with
    | none => none
    | some _ =>
      if containsSub row_text "SO" then some "SO"
      else if containsSub row_text "OT" then some "OT"
      else some "FT"
  let venue := (["Fiera Milano", "PalaItalia", "PalaItalia Santa Giulia"] : List String).find?
    (fun v => containsSub row_text v)
  { category := category, start := start, team1 := tp.1, team2 := tp.2,
    phase_key := ctx2.curPhase, phase_label := (dget PHASE_CZ ctx2.curPhase).getD "Skupina",
    group_label := ctx2.curGroup, venue := venue,
    score1 := sc.map (·.1), score2 := sc.map (·.2), status_suffix := status_suffix }

/-- One accumulated row at a `|-` separator (lines 668-723). -/
def wtRowStep (category : String) (ctx : WtCtx) (row_text : String) : WtCtx × List Game :=
  let ctx2 := match wtDateTok row_text with
    | some tok => { ctx with curDate := parsedDateFixYear tok }
    | none => ctx
  match ctx2.curDate, timeSearch row_text with
  | some cd, some (_, _, ttext) =>
    (match dateutil_parse (String.mk (isoChars cd ++ ' ' :: ttext)) with
     | none => (ctx2, [])
     | some dt =>
       let tp := extract_teams row_text
       if tp.1 = "TBD" ∧ tp.2 = "TBD" then (ctx2, [])
       else (ctx2, [wtGameOf category ctx2 row_text ⟨dt.year, dt.month, dt.day, dt.hour, dt.minute⟩]))
  | _, _ => (ctx2, [])

/-- Line loop with the row buffer (lines 664-725); a trailing unflushed
buffer is dropped, as in the source. -/
def wtLoop (category : String) : WtCtx → List String → List String → List Game
  | _, _, [] => []
  | ctx, buf, line :: rest =>
    let ctx2 := wtUpdateContext ctx line
    if startsWithS line "|-" then
      let r := wtRowStep category ctx2 (String.intercalate " " buf)
      r.2 ++ wtLoop category r.1 [] rest
    else
      wtLoop category ctx2 (buf ++ [line]) rest

def parse_wikipedia_wikitext (wikitext : String) (category : String) : List Game :=
  wtLoop category {} [] (splitLines wikitext)

/-! ## The strategy cascade (lines 245-369)

The document is fetched once and its three views are handed to the first
three strategies; only the terminal strategy uses its separately fetched
raw wikitext. -/

structure Document where
  tables : List WikiTable
  vevents : List VEventRow
  textRaw : List String

def parse_wikipedia_schedule (doc : Document) (apiWikitext : String) (category : String) :
    List Game :=
  let games := parse_wikipedia_tables doc.tables category
  if games ≠ [] then games else
  let vevent_games := parse_wikipedia_vevents doc.vevents category
  if vevent_games ≠ [] then vevent_games else
  let fallback_games := parse_wikipedia_schedule_text doc.textRaw category
  if fallback_games ≠ [] then fallback_games else
  parse_wikipedia_wikitext apiWikitext category

/-! ## Per-category pipeline and main (lines 819-860); the calendar
serialization and file writes are external I/O and not modelled. -/

def load_schedule_for_category (result : Except String (List Game)) : List Game :=
  match result with
  | .ok games => if games.isEmpty then [] else games
  | .error _ => []

/-- Lines 839-842: assign playoff indices, filter to relevant games,
sort chronologically (Python `list.sort` is stable). -/
def process_category (games : List Game) : List Game :=
  let g1 := assign_playoff_indices games
  let g2 := g1.filter should_include
  List.insertionSort gameLe g2

/-- `main` modelled on the per-category fetch outcomes: returns the exit
code, the per-category relevant games, and the combined sorted list. -/
def main_model (results : List (Except String (List Game))) :
    Nat × List (List Game) × List Game :=
  let all_games := results.map (fun r =>
    let games := load_schedule_for_category r
    if games.isEmpty then [] else process_category games)
  let combined := all_games.flatten
  let combinedSorted := if combined.isEmpty then [] else List.insertionSort gameLe combined
  (0, all_games, combinedSorted)

/-! ## Lemmas: normalize_team_name output shape -/

theorem upperFacts : ∀ c ∈ upperChars, c ≠ '[' ∧ isWsC c = false ∧ isWordC c = true := by
  decide

theorem isUpperC_iff_mem {c : Char} : isUpperC c = true ↔ c ∈ upperChars := by
  simp [isUpperC]

theorem sbGo_no_bracket : ∀ l : List Char, (∀ c ∈ l, c ≠ '[') → sbGo l false [] = l := by
  intro l h
  induction l with
  | nil => rfl
  | cons c rest ih =>
    have hc : c ≠ '[' := h c (by simp)
    simp only [sbGo, if_neg hc]
    rw [ih (fun d hd => h d (by simp [hd]))]

theorem collapseWs_no_ws : ∀ l : List Char, (∀ c ∈ l, isWsC c = false) → collapseWs l = l := by
  intro l
  induction l with
  | nil => intro _; rfl
  | cons c rest ih =>
    intro h
    have hc : isWsC c = false := h c (by simp)
    match rest with
    | [] => simp [collapseWs, hc]
    | d :: rest2 =>
      have hd : isWsC d = false := h d (by simp)
      have := ih (fun e he => h e (by simp [he]))
      simp [collapseWs, hc, hd, this]

theorem alookup_mem {α : Type} :
    ∀ (ps : List (List Char × α)) (x : List Char) (v : α),
      alookup ps x = some v → ∃ k, (k, v) ∈ ps ∧ x = k := by
  intro ps
  induction ps with
  | nil => intro x v h; simp [alookup] at h
  | cons kv rest ih =>
    intro x v h
    obtain ⟨k, w⟩ := kv
    rw [alookup] at h
    split at h
    · rename_i hx
      exact ⟨k, by simp [Option.some.inj h], hx⟩
    · obtain ⟨k2, hk2, hx2⟩ := ih x v h
      exact ⟨k2, by simp [hk2], hx2⟩

theorem alias_values_upper3 :
    ∀ kv ∈ TEAM_ALIAS_LOOKUP, (kv.2).data.length = 3 ∧ ∀ c ∈ (kv.2).data, isUpperC c = true := by
  decide

theorem alias_keys_not_len3 : ∀ kv ∈ TEAM_ALIAS_LOOKUP, kv.1.length ≠ 3 := by
  decide

theorem find3Go_shape :
    ∀ (l : List Char) (prev : Option Char) (m : List Char),
      find3Go prev l = some m → m.length = 3 ∧ ∀ c ∈ m, isUpperC c = true := by
  intro l
  induction l with
  | nil => intro prev m h; simp [find3Go] at h
  | cons a rest ih =>
    intro prev m h
    match rest, ih, h with
    | [], _, h => simp [find3Go] at h
    | [b], _, h => simp [find3Go] at h
    | b :: c :: rest2, ih, h =>
      rw [find3Go] at h
      split at h
      · rename_i hcond
        simp only [Bool.and_eq_true] at hcond
        obtain ⟨⟨⟨⟨h1, h2⟩, h3⟩, -⟩, -⟩ := hcond
        have hm : m = [a, b, c] := (Option.some.inj h).symm
        subst hm
        refine ⟨rfl, ?_⟩
        intro d hd
        simp only [List.mem_cons, List.not_mem_nil, or_false] at hd
        rcases hd with rfl | rfl | rfl
        · exact h1
        · exact h2
        · exact h3
      · exact ih (some a) m h

theorem tbdL_shape : tbdL.length = 3 ∧ ∀ c ∈ tbdL, isUpperC c = true := by decide

/-- The normalizer always returns exactly three ASCII uppercase letters
(`TBD`, an alias value, or an embedded three-letter token). -/
theorem ntnL_shape (name : List Char) :
    (ntnL name).length = 3 ∧ ∀ c ∈ ntnL name, isUpperC c = true := by
  unfold ntnL
  split
  · exact tbdL_shape
  split
  · exact tbdL_shape
  · cases halias : alookup TEAM_ALIAS_LOOKUP (lowerL (cleanedOf name)) with
    | some code =>
      obtain ⟨k, hk, -⟩ := alookup_mem _ _ _ halias
      simpa using alias_values_upper3 (k, code) hk
    | none =>
      cases hf : find3Go none (cleanedOf name) with
      | some m => exact find3Go_shape _ none m hf
      | none => exact tbdL_shape

theorem length3_cases {α : Type} (m : List α) (h : m.length = 3) :
    ∃ a b c, m = [a, b, c] := by
  match m with
  | [a, b, c] => exact ⟨a, b, c, rfl⟩
  | [] => simp at h
  | [a] => simp at h
  | [a, b] => simp at h
  | a :: b :: c :: d :: t => simp [List.length] at h

/-- Normalizing a three-uppercase-letter string returns it unchanged. -/
theorem ntnL_upper3 (a b c : Char) (ha : isUpperC a = true) (hb : isUpperC b = true)
    (hc : isUpperC c = true) : ntnL [a, b, c] = [a, b, c] := by
  have hfa := upperFacts a (isUpperC_iff_mem.mp ha)
  have hfb := upperFacts b (isUpperC_iff_mem.mp hb)
  have hfc := upperFacts c (isUpperC_iff_mem.mp hc)
  have hsb : stripBrackets [a, b, c] = [a, b, c] := by
    apply sbGo_no_bracket
    intro d hd
    simp only [List.mem_cons, List.not_mem_nil, or_false] at hd
    rcases hd with rfl | rfl | rfl
    · exact hfa.1
    · exact hfb.1
    · exact hfc.1
  have hcw : collapseWs [a, b, c] = [a, b, c] := by
    apply collapseWs_no_ws
    intro d hd
    simp only [List.mem_cons, List.not_mem_nil, or_false] at hd
    rcases hd with rfl | rfl | rfl
    · exact hfa.2.1
    · exact hfb.2.1
    · exact hfc.2.1
  have hst : stripL [a, b, c] = [a, b, c] := by
    simp [stripL, List.dropWhile, hfa.2.1, hfb.2.1, hfc.2.1]
  have hcl : cleanedOf [a, b, c] = [a, b, c] := by
    unfold cleanedOf
    rw [hsb, hcw, hst]
  unfold ntnL
  rw [if_neg (by simp), hcl, if_neg (by simp)]
  cases halias : alookup TEAM_ALIAS_LOOKUP (lowerL [a, b, c]) with
  | some code =>
    obtain ⟨k, hk, hx⟩ := alookup_mem _ _ _ halias
    have : k.length ≠ 3 := alias_keys_not_len3 (k, code) hk
    rw [← hx] at this
    simp [lowerL] at this
  | none =>
    have : find3Go none [a, b, c] = some [a, b, c] := by
      simp [find3Go, ha, hb, hc, bBefore, bAfter]
    rw [this]

theorem ntnL_idem (l : List Char) : ntnL (ntnL l) = ntnL l := by
  obtain ⟨hlen, hup⟩ := ntnL_shape l
  obtain ⟨a, b, c, h3⟩ := length3_cases _ hlen
  rw [h3] at hup ⊢
  exact ntnL_upper3 a b c (hup a (by simp)) (hup b (by simp)) (hup c (by simp))

/-! ## Claims C2 and C9 -/

/-- C2 (counterexample): `normalize_team_name "XYZ"` returns `"XYZ"`, which
is neither a value of the alias table nor the sentinel `"TBD"` — the
embedded-token regex fallback passes through any three uppercase letters. -/
theorem claim_C2_counterexample :
    normalize_team_name "XYZ" = "XYZ" ∧
    "XYZ" ∉ TEAM_CODE_ALIASES.map Prod.snd ∧ "XYZ" ≠ "TBD" := by decide

/-- C2 (amended): for every input string, `normalize_team_name` returns a
string of exactly three ASCII uppercase letters — the sentinel `"TBD"`, an
alias-table value, or a three-letter uppercase token embedded in the input —
never any other text. -/
theorem claim_C2_amended (s : String) :
    (normalize_team_name s).data.length = 3 ∧
    ∀ c ∈ (normalize_team_name s).data, isUpperC c = true := by
  have : (normalize_team_name s).data = ntnL s.data := rfl
  rw [this]
  exact ntnL_shape s.data

/-- C2 (amended) witness at a concrete input. -/
theorem claim_C2_amended_witness :
    (normalize_team_name "Czechia").data.length = 3 ∧
    ∀ c ∈ (normalize_team_name "Czechia").data, isUpperC c = true :=
  claim_C2_amended "Czechia"

/-- C9: `normalize_team_name` is idempotent — its output (always a
three-uppercase-letter string) maps to itself, so normalizing twice equals
normalizing once, for every input string. -/
theorem claim_C9 (s : String) :
    normalize_team_name (normalize_team_name s) = normalize_team_name s := by
  show String.mk (ntnL (String.mk (ntnL s.data)).data) = String.mk (ntnL s.data)
  have : (String.mk (ntnL s.data)).data = ntnL s.data := rfl
  rw [this, ntnL_idem]

/-- C9 witness at concrete inputs: an already-canonical code is unchanged. -/
theorem claim_C9_witness :
    normalize_team_name (normalize_team_name "Finland") = normalize_team_name "Finland" :=
  claim_C9 "Finland"

/-! ## Claim C10 -/

/-- C10: for a playoff-phase game with an undetermined team and no assigned
`playoff_index`, `build_summary` falls back to index 1: the title is the
prefix, the Czech phase label, and `" 1"` — team names are not shown. -/
theorem claim_C10 (g : Game) (hp : g.phase_key ∈ PLAYOFF_PHASES)
    (ht : g.team1 = "TBD" ∨ g.team2 = "TBD") (hi : g.playoff_index = none) :
    build_summary g = summary_prefix g ++ (dget PHASE_CZ g.phase_key).getD "" ++ " " ++ "1" := by
  unfold build_summary
  rw [if_pos ⟨hp, ht⟩, hi]
  rfl

/-- C10 witness: a semifinal with an undetermined slot and no index renders
as the women's emoji with "Semifinále 1". -/
theorem claim_C10_witness :
    build_summary { category := "women", start := ⟨2026, 2, 21, 15, 0⟩, team1 := "TBD",
                    team2 := "CZE", phase_key := "semifinals", phase_label := "Semifinále",
                    group_label := none, venue := none } = "👩 Semifinále 1" := by
  rw [claim_C10 _ (by decide) (Or.inl rfl) rfl]
  decide

/-! ## Claim C8 -/

/-- C8: a failed per-category fetch/parse is downgraded to the empty game
list at the `load_schedule_for_category` boundary, `main` still processes
every other category the same way, and the exit code is always 0. -/
theorem claim_C8 :
    (∀ e : String, load_schedule_for_category (Except.error e) = []) ∧
    (∀ results : List (Except String (List Game)), (main_model results).1 = 0) ∧
    (∀ (e : String) (rest : List (Except String (List Game))),
      (main_model (Except.error e :: rest)).2.1 = [] :: (main_model rest).2.1) := by
  refine ⟨fun _ => rfl, fun _ => rfl, fun e rest => ?_⟩
  simp [main_model, load_schedule_for_category]

/-! ## Claim C7 -/

theorem not_mem_process_category (games : List Game) (g : Game)
    (h : should_include g = false) : g ∉ process_category games := by
  intro hmem
  unfold process_category at hmem
  rw [(List.perm_insertionSort gameLe _).mem_iff] at hmem
  have := (List.mem_filter.mp hmem).2
  rw [h] at this
  cases this

/-- C7: `should_include` is true exactly when the game is a playoff game or
one of its teams is the tracked code `"CZE"`; a game it rejects appears in
no per-category output and not in the combined output. -/
theorem claim_C7 :
    (∀ g : Game, should_include g = true ↔
      (g.phase_key ∈ PLAYOFF_PHASES ∨ g.team1 = TEAM_CZ ∨ g.team2 = TEAM_CZ)) ∧
    (∀ (games : List Game) (g : Game), should_include g = false →
      g ∉ process_category games) ∧
    (∀ (results : List (Except String (List Game))) (g : Game), should_include g = false →
      (∀ cat ∈ (main_model results).2.1, g ∉ cat) ∧ g ∉ (main_model results).2.2) := by
  refine ⟨?_, not_mem_process_category, ?_⟩
  · intro g
    unfold should_include
    split
    · rename_i hp
      simp [hp]
    · rename_i hp
      simp [hp, decide_eq_true_iff]
  · intro results g h
    have hcat : ∀ cat ∈ (main_model results).2.1, g ∉ cat := by
      intro cat hcat hmem
      simp only [main_model, List.mem_map] at hcat
      obtain ⟨r, -, hr⟩ := hcat
      rw [← hr] at hmem
      split at hmem
      · cases hmem
      · exact not_mem_process_category _ g h hmem
    refine ⟨hcat, ?_⟩
    intro hmem
    simp only [main_model] at hmem hcat
    split at hmem
    · cases hmem
    · rw [(List.perm_insertionSort gameLe _).mem_iff] at hmem
      obtain ⟨cat, hc, hg⟩ := List.mem_flatten.mp hmem
      exact hcat cat hc hg

/-- C7 witness: a preliminary game between two non-tracked teams is
rejected and excluded from its category's and the combined output. -/
theorem claim_C7_witness :
    should_include { category := "men", start := ⟨2026, 2, 12, 12, 0⟩, team1 := "FIN",
                     team2 := "SWE", phase_key := "preliminary", phase_label := "Skupina",
                     group_label := none, venue := none } = false ∧
    ({ category := "men", start := ⟨2026, 2, 12, 12, 0⟩, team1 := "FIN",
       team2 := "SWE", phase_key := "preliminary", phase_label := "Skupina",
       group_label := none, venue := none } : Game) ∉
      process_category [{ category := "men", start := ⟨2026, 2, 12, 12, 0⟩, team1 := "FIN",
                          team2 := "SWE", phase_key := "preliminary", phase_label := "Skupina",
                          group_label := none, venue := none }] :=
  ⟨by decide, claim_C7.2.1 _ _ (by decide)⟩

/-! ## Claim C3 -/

/-- C3: the assembler tries the four strategies in the fixed order
table → vevent → text → wikitext, the first three against the views of the
one fetched document, and returns the first non-empty result; later
strategies are not consulted. -/
theorem claim_C3 (doc : Document) (apiWikitext : String) (category : String) :
    (parse_wikipedia_tables doc.tables category ≠ [] →
      parse_wikipedia_schedule doc apiWikitext category =
        parse_wikipedia_tables doc.tables category) ∧
    (parse_wikipedia_tables doc.tables category = [] →
     parse_wikipedia_vevents doc.vevents category ≠ [] →
      parse_wikipedia_schedule doc apiWikitext category =
        parse_wikipedia_vevents doc.vevents category) ∧
    (parse_wikipedia_tables doc.tables category = [] →
     parse_wikipedia_vevents doc.vevents category = [] →
     parse_wikipedia_schedule_text doc.textRaw category ≠ [] →
      parse_wikipedia_schedule doc apiWikitext category =
        parse_wikipedia_schedule_text doc.textRaw category) ∧
    (parse_wikipedia_tables doc.tables category = [] →
     parse_wikipedia_vevents doc.vevents category = [] →
     parse_wikipedia_schedule_text doc.textRaw category = [] →
      parse_wikipedia_schedule doc apiWikitext category =
        parse_wikipedia_wikitext apiWikitext category) := by
  unfold parse_wikipedia_schedule
  refine ⟨?_, ?_, ?_, ?_⟩ <;> intros <;> simp_all

/-- C3 witness: with no parsable tables but a parsable vevent row, the
cascade returns the vevent result. -/
theorem claim_C3_witness :
    parse_wikipedia_schedule
        ⟨[], [{ cells := ["11 February 2026 15:10", "Finland", "", "Sweden"],
                heading := none, anchorHref := none }], []⟩ "" "men" =
      parse_wikipedia_vevents
        [{ cells := ["11 February 2026 15:10", "Finland", "", "Sweden"],
           heading := none, anchorHref := none }] "men" :=
  (claim_C3 _ "" "men").2.1 (by decide) (by decide)

/-! ## Claim C1: scores and status suffix -/

theorem tableGameOf_scores (hi : HeaderIdxs) (cap cat : String) (texts : List String)
    (st : PyDateTime) :
    (tableGameOf hi cap cat texts st).score1 = none ∧
    (tableGameOf hi cap cat texts st).score2 = none ∧
    (tableGameOf hi cap cat texts st).status_suffix = none := ⟨rfl, rfl, rfl⟩

theorem tableRowStep_some (hi : HeaderIdxs) (cap cat : String)
    (cur : Option PyDateTime) (texts : List String) (g : Game)
    (h : (tableRowStep hi cap cat cur texts).2 = some g) :
    ∃ st, g = tableGameOf hi cap cat texts st := by
  simp only [tableRowStep] at h
  repeat' split at h
  all_goals try cases h
  all_goals exact ⟨_, rfl⟩

theorem tableRowsGames_scores (hi : HeaderIdxs) (cap cat : String) :
    ∀ (rows : List (List String)) (cur : Option PyDateTime) (g : Game),
      g ∈ tableRowsGames hi cap cat cur rows →
      g.score1 = none ∧ g.score2 = none ∧ g.status_suffix = none := by
  intro rows
  induction rows with
  | nil => intro cur g h; simp [tableRowsGames] at h
  | cons texts rest ih =>
    intro cur g h
    simp only [tableRowsGames] at h
    rcases List.mem_append.mp h with h1 | h2
    · cases hstep : (tableRowStep hi cap cat cur texts).2 with
      | none => rw [hstep] at h1; cases h1
      | some g0 =>
        rw [hstep] at h1
        rcases List.mem_singleton.mp h1 with rfl
        obtain ⟨st, rfl⟩ := tableRowStep_some hi cap cat cur texts g hstep
        exact tableGameOf_scores hi cap cat texts st
    · exact ih _ g h2

theorem vevGameOf_suffix (cat : String) (r : VEventRow) (c0 c1 c2 c3 : String)
    (rest : List String) (st : PyDateTime) :
    ((vevGameOf cat r c0 c1 c2 c3 rest st).status_suffix ≠ none ↔
      ((vevGameOf cat r c0 c1 c2 c3 rest st).score1 ≠ none ∧
       (vevGameOf cat r c0 c1 c2 c3 rest st).score2 ≠ none)) := by
  simp only [vevGameOf]
  cases hsc : scoreSearch c2 with
  | none => simp
  | some ab =>
    simp only [Option.map_some]
    constructor
    · intro _; exact ⟨by simp, by simp⟩
    · intro _
      split
      · simp
      · split <;> simp

theorem vevRowGames_shape (cat : String) (r : VEventRow) (g : Game)
    (h : g ∈ vevRowGames cat r) :
    ∃ c0 c1 c2 c3 rest st, g = vevGameOf cat r c0 c1 c2 c3 rest st := by
  simp only [vevRowGames] at h
  repeat' split at h
  all_goals first
    | exact absurd h (List.not_mem_nil g)
    | (rw [List.mem_singleton] at h; exact ⟨_, _, _, _, _, _, h⟩)

theorem textGameOf_suffix (cat : String) (ctx : TextCtx) (line : String)
    (next? : Option String) (st : PyDateTime) :
    (textGameOf cat ctx line next? st).status_suffix = none := rfl

/-- Inversion for the plain-text loop: every produced game comes from some
processed line that passed the emission guard. -/
theorem textLoop_inv (cat : String) :
    ∀ (lines : List String) (ctx : TextCtx) (g : Game),
      g ∈ textLoop cat ctx lines →
      ∃ ctx2 line next? st, line ∈ lines ∧ textGuard line = true ∧
        g = textGameOf cat ctx2 line next? st := by
  intro lines
  induction lines with
  | nil => intro ctx g h; simp [textLoop] at h
  | cons line rest ih =>
    intro ctx g h
    simp only [textLoop] at h
    repeat' split at h
    all_goals
      first
        | (rcases List.mem_cons.mp h with rfl | h2
           · exact ⟨_, _, _, _, List.mem_cons_self _ _, by assumption, rfl⟩
           · obtain ⟨ctx2, l2, n2, st, hl, hgu, hEq⟩ := ih _ g h2
             exact ⟨ctx2, l2, n2, st, List.mem_cons_of_mem _ hl, hgu, hEq⟩)
        | (obtain ⟨ctx2, l2, n2, st, hl, hgu, hEq⟩ := ih _ g h
           exact ⟨ctx2, l2, n2, st, List.mem_cons_of_mem _ hl, hgu, hEq⟩)

theorem wtGameOf_suffix (cat : String) (ctx2 : WtCtx) (row : String) (st : PyDateTime) :
    ((wtGameOf cat ctx2 row st).status_suffix ≠ none ↔
      ((wtGameOf cat ctx2 row st).score1 ≠ none ∧ (wtGameOf cat ctx2 row st).score2 ≠ none)) := by
  simp only [wtGameOf]
  cases hsc : scoreSearch row with
  | none => simp
  | some ab =>
    simp only [Option.map_some]
    constructor
    · intro _; exact ⟨by simp, by simp⟩
    · intro _
      split
      · simp
      · split <;> simp

theorem wtRowStep_mem (cat : String) (ctx : WtCtx) (row : String) (g : Game)
    (h : g ∈ (wtRowStep cat ctx row).2) :
    ∃ ctx2 st, ¬((extract_teams row).1 = "TBD" ∧ (extract_teams row).2 = "TBD") ∧
      g = wtGameOf cat ctx2 row st := by
  simp only [wtRowStep] at h
  repeat' split at h
  all_goals first
    | exact absurd h (List.not_mem_nil g)
    | (rw [List.mem_singleton] at h; exact ⟨_, _, by assumption, h⟩)

theorem wtLoop_mem (cat : String) :
    ∀ (lines : List String) (ctx : WtCtx) (buf : List String) (g : Game),
      g ∈ wtLoop cat ctx buf lines →
      ∃ ctx2 row st, ¬((extract_teams row).1 = "TBD" ∧ (extract_teams row).2 = "TBD") ∧
        g = wtGameOf cat ctx2 row st := by
  intro lines
  induction lines with
  | nil => intro ctx buf g h; simp [wtLoop] at h
  | cons line rest ih =>
    intro ctx buf g h
    simp only [wtLoop] at h
    split at h
    · rcases List.mem_append.mp h with h1 | h2
      · obtain ⟨ctx2, st, hg, rfl⟩ := wtRowStep_mem cat _ _ g h1
        exact ⟨ctx2, _, st, hg, rfl⟩
      · exact ih _ _ g h2
    · exact ih _ _ g h

/-! ## Character-class and digit-arithmetic facts -/

theorem isDigitC_iff_mem {c : Char} : isDigitC c = true ↔ c ∈ digitChars := by
  simp [isDigitC]

theorem isWsC_iff_mem {c : Char} : isWsC c = true ↔ c ∈ wsChars := by
  simp [isWsC]

theorem digitMemFacts : ∀ c ∈ digitChars, charVal c ≤ 9 ∧ isWsC c = false ∧
    isAlphaC c = false := by decide

theorem wsMemFacts : ∀ c ∈ wsChars, isDigitC c = false ∧ isAlphaC c = false := by decide

theorem alphaMemFacts :
    (∀ c ∈ upperChars, isDigitC c = false ∧ isWsC c = false) ∧
    (∀ c ∈ lowerChars, isDigitC c = false ∧ isWsC c = false) := by decide

theorem charVal_le9 {c : Char} (h : isDigitC c = true) : charVal c ≤ 9 :=
  (digitMemFacts c (isDigitC_iff_mem.mp h)).1

theorem digit_not_ws {c : Char} (h : isDigitC c = true) : isWsC c = false :=
  (digitMemFacts c (isDigitC_iff_mem.mp h)).2.1

theorem ws_not_digit {c : Char} (h : isWsC c = true) : isDigitC c = false :=
  (wsMemFacts c (isWsC_iff_mem.mp h)).1

theorem ws_not_alpha {c : Char} (h : isWsC c = true) : isAlphaC c = false :=
  (wsMemFacts c (isWsC_iff_mem.mp h)).2

theorem alpha_not_ws {c : Char} (h : isAlphaC c = true) : isWsC c = false := by
  rcases Bool.or_eq_true_iff.mp (by simpa [isAlphaC] using h) with hu | hl
  · exact (alphaMemFacts.1 c (isUpperC_iff_mem.mp hu)).2
  · exact (alphaMemFacts.2 c (by simpa [isLowerC] using hl)).2

theorem alpha_not_digit {c : Char} (h : isAlphaC c = true) : isDigitC c = false := by
  rcases Bool.or_eq_true_iff.mp (by simpa [isAlphaC] using h) with hu | hl
  · exact (alphaMemFacts.1 c (isUpperC_iff_mem.mp hu)).1
  · exact (alphaMemFacts.2 c (by simpa [isLowerC] using hl)).1

theorem digitChar_isDigit {n : Nat} (h : n ≤ 9) : isDigitC (digitChar n) = true := by
  interval_cases n <;> decide

theorem charVal_digitChar {n : Nat} (h : n ≤ 9) : charVal (digitChar n) = n := by
  interval_cases n <;> decide

theorem natOfDigits_foldl_lt (l : List Char) :
    ∀ acc : Nat, (∀ c ∈ l, isDigitC c = true) →
      l.foldl (fun a c => a * 10 + charVal c) acc < (acc + 1) * 10 ^ l.length := by
  induction l with
  | nil => intro acc _; simp only [List.foldl_nil, List.length_nil, pow_zero, mul_one]; exact Nat.lt_succ_self acc
  | cons c rest ih =>
    intro acc hall
    have hc : charVal c ≤ 9 := charVal_le9 (hall c (by simp))
    have hrec := ih (acc * 10 + charVal c) (fun d hd => hall d (by simp [hd]))
    calc (c :: rest).foldl (fun a c => a * 10 + charVal c) acc
        = rest.foldl (fun a c => a * 10 + charVal c) (acc * 10 + charVal c) := rfl
      _ < (acc * 10 + charVal c + 1) * 10 ^ rest.length := hrec
      _ ≤ (acc + 1) * 10 ^ (c :: rest).length := by
          simp only [List.length_cons, pow_succ]
          have : acc * 10 + charVal c + 1 ≤ (acc + 1) * 10 := by omega
          calc (acc * 10 + charVal c + 1) * 10 ^ rest.length
              ≤ (acc + 1) * 10 * 10 ^ rest.length := Nat.mul_le_mul_right _ this
            _ = (acc + 1) * (10 ^ rest.length * 10) := by ring

theorem natOfDigits_lt (l : List Char) (h : ∀ c ∈ l, isDigitC c = true) :
    natOfDigits l < 10 ^ l.length := by
  simpa [natOfDigits] using natOfDigits_foldl_lt l 0 h

/-! ## splitWhile structure lemmas -/

theorem splitWhile_all (p : Char → Bool) :
    ∀ l : List Char, ∀ c ∈ (splitWhile p l).1, p c = true := by
  intro l
  induction l with
  | nil => intro c h; simp [splitWhile] at h
  | cons a rest ih =>
    intro c h
    rw [splitWhile] at h
    split at h
    · rcases List.mem_cons.mp h with rfl | h2
      · assumption
      · exact ih c h2
    · simp at h

theorem splitWhile_head (p : Char → Bool) (l : List Char)
    (h : (splitWhile p l).1 ≠ []) :
    ∃ c cs, l = c :: cs ∧ p c = true := by
  match l with
  | [] => simp [splitWhile] at h
  | a :: rest =>
    rw [splitWhile] at h
    split at h
    · exact ⟨a, rest, rfl, by assumption⟩
    · simp at h

theorem splitWhile_append (p : Char → Bool) :
    ∀ (xs ys : List Char), (∀ c ∈ xs, p c = true) →
      (ys = [] ∨ ∃ c cs, ys = c :: cs ∧ p c = false) →
      splitWhile p (xs ++ ys) = (xs, ys) := by
  intro xs
  induction xs with
  | nil =>
    intro ys _ hy
    rcases hy with rfl | ⟨c, cs, rfl, hc⟩
    · rfl
    · simp [splitWhile, hc]
  | cons a rest ih =>
    intro ys hx hy
    have ha : p a = true := hx a (by simp)
    simp only [List.cons_append, splitWhile, ha, if_pos]
    rw [show rest.append ys = rest ++ ys from rfl, ih ys (fun c hc => hx c (by simp [hc])) hy]

/-! ## Facts about the modelled date parser -/

theorem natOfDigits4_le9999 (a b c e : Char) (ha : isDigitC a = true) (hb : isDigitC b = true)
    (hc : isDigitC c = true) (he : isDigitC e = true) :
    natOfDigits [a, b, c, e] ≤ 9999 := by
  have h := natOfDigits_lt [a, b, c, e] (by
    intro x hx
    simp only [List.mem_cons, List.not_mem_nil, or_false] at hx
    rcases hx with rfl | rfl | rfl | rfl <;> assumption)
  norm_num at h
  omega
theorem natOfDigits2_le99 (a b : Char) (ha : isDigitC a = true) (hb : isDigitC b = true) :
    natOfDigits [a, b] ≤ 99 := by
  have h := natOfDigits_lt [a, b] (by
    intro x hx
    simp only [List.mem_cons, List.not_mem_nil, or_false] at hx
    rcases hx with rfl | rfl <;> assumption)
  norm_num at h
  omega
theorem parseISO_some (l : List Char) (d : PyDateTime) (h : parseISO l = some d) :
    d.year ≤ 9999 ∧ 1 ≤ d.month ∧ d.month ≤ 12 ∧ 1 ≤ d.day ∧ d.day ≤ 31 ∧
    ∃ a b c e rest, l = a :: b :: c :: e :: rest ∧ isDigitC a = true ∧ isDigitC b = true ∧
      isDigitC c = true ∧ isDigitC e = true := by
  unfold parseISO at h
  split at h
  · rename_i a b c e f g2 g3 g4 g5 g6 rest
    split at h
    · rename_i hdig
      simp only [Bool.and_eq_true, beq_iff_eq] at hdig
      obtain ⟨⟨⟨⟨⟨⟨⟨⟨⟨hda, hdb⟩, hdc⟩, hde⟩, -⟩, -⟩, -⟩, -⟩, -⟩, -⟩ := hdig
      have hyear : natOfDigits [a, b, c, e] ≤ 9999 := natOfDigits4_le9999 a b c e hda hdb hdc hde
      split at h
      · -- rest = []
        dsimp only at h
        rw [ite_eq_iff] at h
        rcases h with ⟨hrange, h⟩ | ⟨-, h⟩
        · simp only [Bool.and_eq_true, decide_eq_true_eq] at hrange
          obtain ⟨⟨⟨hm1, hm2⟩, hd1⟩, hd2⟩ := hrange
          cases h
          exact ⟨hyear, hm1, hm2, hd1, hd2, a, b, c, e, _, rfl, hda, hdb, hdc, hde⟩
        · cases h
      · -- rest = ' ' :: t
        dsimp only at h
        rw [ite_eq_iff] at h
        rcases h with ⟨hrange, h⟩ | ⟨-, h⟩
        · simp only [Bool.and_eq_true, decide_eq_true_eq] at hrange
          obtain ⟨⟨⟨hm1, hm2⟩, hd1⟩, hd2⟩ := hrange
          rename_i t2
          rcases htw : timeWordVal t2 with - | ⟨hh, mm⟩ <;> rw [htw] at h
          · cases h
          · cases h
            exact ⟨hyear, hm1, hm2, hd1, hd2, a, b, c, e, _, rfl, hda, hdb, hdc, hde⟩
        · cases h
      · -- other rest
        dsimp only at h
        rw [ite_eq_iff] at h
        rcases h with ⟨-, h⟩ | ⟨-, h⟩ <;> cases h
    · cases h
  · cases h
theorem monthRangeFact : ∀ kv ∈ monthNames, 1 ≤ kv.2 ∧ kv.2 ≤ 12 := by decide
theorem monthOf_range (w : List Char) (mo : Nat) (h : monthOf w = some mo) :
    1 ≤ mo ∧ mo ≤ 12 := by
  obtain ⟨k, hk, -⟩ := alookup_mem _ _ _ h
  exact monthRangeFact (k, mo) hk
theorem natOfDigits_splitWhile_le (l : List Char)
    (h : (splitWhile isDigitC l).1.length = 4) : natOfDigits (splitWhile isDigitC l).1 ≤ 9999 := by
  have h2 := natOfDigits_lt (splitWhile isDigitC l).1 (splitWhile_all isDigitC l)
  rw [h] at h2
  norm_num at h2
  omega
theorem dayRange_of (day : Nat) (h : ¬(!(decide (1 ≤ day) && decide (day ≤ 31))) = true) :
    1 ≤ day ∧ day ≤ 31 := by
  have h2 : (decide (1 ≤ day) && decide (day ≤ 31)) = true := by
    cases hb : (decide (1 ≤ day) && decide (day ≤ 31)) with
    | true => rfl
    | false => exact absurd (by rw [hb]; rfl) h
  simp only [Bool.and_eq_true, decide_eq_true_eq] at h2
  exact h2
theorem parseDMY_head (l : List Char)
    (h : ¬((splitWhile isDigitC l).1.isEmpty || decide ((splitWhile isDigitC l).1.length > 2)) = true) :
    ∃ c cs, l = c :: cs ∧ isDigitC c = true := by
  apply splitWhile_head
  simp only [Bool.or_eq_true, not_or, Bool.not_eq_true] at h
  intro he
  rw [he] at h
  simp at h
theorem parseDMY_some (l : List Char) (d : PyDateTime) (h : parseDMY l = some d) :
    (d.year = 1900 ∨ d.year ≤ 9999) ∧ 1 ≤ d.month ∧ d.month ≤ 12 ∧ 1 ≤ d.day ∧ d.day ≤ 31 ∧
    ∃ c cs, l = c :: cs ∧ isDigitC c = true := by
  unfold parseDMY at h
  dsimp only at h
  repeat' split at h
  all_goals try cases h
  all_goals
    refine ⟨?_, (monthOf_range _ _ (by assumption)).1, (monthOf_range _ _ (by assumption)).2,
            (dayRange_of _ (by assumption)).1, (dayRange_of _ (by assumption)).2,
            parseDMY_head l (by assumption)⟩
  all_goals first
    | exact Or.inl rfl
    | exact Or.inr (natOfDigits_splitWhile_le _ (of_decide_eq_true (by assumption)))

/-- Well-formedness carried by every current date the strategies hold. -/
def dateOkP (d : PyDateTime) : Prop :=
  d.year ≠ 1900 ∧ d.year ≤ 9999 ∧ d.month ≤ 99 ∧ d.day ≤ 99

theorem dateutil_bounds (l : List Char) (d : PyDateTime)
    (h : dateutil_parse_chars l = some d) :
    (d.year = 1900 ∨ d.year ≤ 9999) ∧ d.month ≤ 99 ∧ d.day ≤ 99 := by
  unfold dateutil_parse_chars at h
  split at h
  · rename_i d0 hiso
    cases h
    obtain ⟨h1, -, h2, -, h3, -⟩ := parseISO_some _ _ hiso
    exact ⟨Or.inr h1, by omega, by omega⟩
  · obtain ⟨h1, -, h2, -, h3, -⟩ := parseDMY_some _ _ h
    exact ⟨h1, by omega, by omega⟩

theorem dateutil_head_digit (l : List Char) (d : PyDateTime)
    (h : dateutil_parse_chars l = some d) :
    ∃ c cs, l = c :: cs ∧ isDigitC c = true := by
  unfold dateutil_parse_chars at h
  split at h
  · rename_i d0 hiso
    obtain ⟨-, -, -, -, -, a, b, c, e, rest, hl, hda, -⟩ := parseISO_some _ _ hiso
    exact ⟨a, _, hl, hda⟩
  · obtain ⟨-, -, -, -, -, hhead⟩ := parseDMY_some _ _ h
    exact hhead

theorem fixYear_ok (d : PyDateTime)
    (hb : (d.year = 1900 ∨ d.year ≤ 9999) ∧ d.month ≤ 99 ∧ d.day ≤ 99) :
    dateOkP (fixYear d) := by
  unfold fixYear dateOkP
  split
  · exact ⟨by show YEAR ≠ 1900; decide, by show YEAR ≤ 9999; decide, hb.2.1, hb.2.2⟩
  · rename_i hne
    rcases hb.1 with h1900 | hle
    · exact absurd h1900 hne
    · exact ⟨hne, hle, hb.2.1, hb.2.2⟩

theorem parsedDateFixYear_ok (tok : List Char) (d : PyDateTime)
    (h : parsedDateFixYear tok = some d) : dateOkP d := by
  unfold parsedDateFixYear at h
  split at h
  · rename_i d0 hp
    cases h
    exact fixYear_ok d0 (dateutil_bounds _ _ hp)
  · cases h

theorem tableDateUpdate_ok (raw : String) (cur : Option PyDateTime)
    (hok : ∀ d, cur = some d → dateOkP d) :
    ∀ d2, tableDateUpdate raw cur = some d2 → dateOkP d2 := by
  intro d2 h
  simp only [tableDateUpdate] at h
  repeat' split at h
  all_goals first
    | exact hok d2 h
    | (cases h; rename_i d0 hp; exact fixYear_ok d0 (dateutil_bounds _ _ hp))

/-! ## Claim C5: dual-TBD rows per strategy -/

theorem collectPositions_snd_mem (lower : List Char) :
    ∀ (names : List String) (p : Nat × String), p ∈ collectPositions lower names → p.2 ∈ names := by
  intro names
  induction names with
  | nil => intro p h; simp [collectPositions] at h
  | cons n rest ih =>
    intro p h
    rw [collectPositions] at h
    split at h
    · rcases List.mem_cons.mp h with rfl | h2
      · simp
      · simp [ih p h2]
    · simp [ih p h]

theorem collectPositions_snd_nodup (lower : List Char) :
    ∀ names : List String, names.Nodup → ((collectPositions lower names).map Prod.snd).Nodup := by
  intro names
  induction names with
  | nil => intro _; simp [collectPositions]
  | cons n rest ih =>
    intro hnd
    rw [collectPositions]
    split
    · simp only [List.map_cons]
      rw [List.nodup_cons]
      refine ⟨?_, ih (List.nodup_cons.mp hnd).2⟩
      intro hmem
      obtain ⟨p, hp, hpn⟩ := List.mem_map.mp hmem
      have hpr : p.2 ∈ rest := collectPositions_snd_mem lower rest p hp
      rw [hpn] at hpr
      exact (List.nodup_cons.mp hnd).1 hpr
    · exact ih (List.nodup_cons.mp hnd).2

theorem team_names_mem (n : String) (h : n ∈ team_names) :
    n ∈ TEAM_ALIAS_LOOKUP.map (fun kv => String.mk kv.1) ∨ n = "tbd" := by
  unfold team_names at h
  rcases List.mem_append.mp h with h1 | h2
  · exact Or.inl ((List.perm_insertionSort lenGe _).mem_iff.mp h1)
  · simp only [List.mem_singleton] at h2
    exact Or.inr h2

theorem ntn_alias_keys :
    ∀ n ∈ TEAM_ALIAS_LOOKUP.map (fun kv => String.mk kv.1),
      normalize_team_name n ≠ "TBD" := by decide

/-- A `team_names` entry normalizing to `TBD` must be the `"tbd"` sentinel. -/
theorem team_names_tbd (n : String) (h : n ∈ team_names)
    (htbd : normalize_team_name n = "TBD") : n = "tbd" := by
  rcases team_names_mem n h with h1 | h2
  · exact absurd htbd (ntn_alias_keys n h1)
  · exact h2

theorem team_names_nodup : team_names.Nodup := by
  unfold team_names
  have hperm := List.perm_insertionSort lenGe (TEAM_ALIAS_LOOKUP.map (fun kv => String.mk kv.1))
  have hkeys : (TEAM_ALIAS_LOOKUP.map (fun kv => String.mk kv.1)).Nodup := by decide
  refine List.Nodup.append (hperm.nodup_iff.mpr hkeys) (by decide) ?_
  intro a ha hb
  simp only [List.mem_singleton] at hb
  subst hb
  have : ("tbd" : String) ∈ TEAM_ALIAS_LOOKUP.map (fun kv => String.mk kv.1) :=
    hperm.mem_iff.mp ha
  revert this
  decide

theorem length2_cases {α : Type} (m : List α) (h : 2 ≤ m.length) : ∃ a b t, m = a :: b :: t := by
  match m with
  | a :: b :: t => exact ⟨a, b, t, rfl⟩
  | [] => simp at h
  | [a] => simp at h

/-- A guarded text-line game with no dual-`TBD` literal in its line cannot
have both teams `TBD`: the two teams come from two distinct alias names, of
which at most one (the `"tbd"` sentinel) normalizes to `TBD`. -/
theorem textGameOf_not_dual (cat : String) (ctx : TextCtx) (line : String)
    (next? : Option String) (st : PyDateTime)
    (hno : containsSub (lowerS line) "tbd v tbd" = false)
    (hg : textGuard line = true) :
    ¬((textGameOf cat ctx line next? st).team1 = "TBD" ∧
      (textGameOf cat ctx line next? st).team2 = "TBD") := by
  have hlen : 2 ≤ (collectPositions (lowerS line).data team_names).length := by
    unfold textGuard at hg
    rw [hno, Bool.or_false, decide_eq_true_iff] at hg
    exact hg
  have hlen2 : 2 ≤ (List.insertionSort posLe
      (collectPositions (lowerS line).data team_names)).length := by
    rw [(List.perm_insertionSort posLe _).length_eq]
    exact hlen
  obtain ⟨p1, p2, tail, hsorted⟩ := length2_cases _ hlen2
  intro hdual
  simp only [textGameOf, if_neg (by simp [hno] : ¬containsSub (lowerS line) "tbd v tbd" = true),
    hsorted] at hdual
  have hmem1 : p1 ∈ collectPositions (lowerS line).data team_names := by
    refine (List.perm_insertionSort posLe _).mem_iff.mp ?_
    rw [hsorted]
    exact List.mem_cons_self _ _
  have hmem2 : p2 ∈ collectPositions (lowerS line).data team_names := by
    refine (List.perm_insertionSort posLe _).mem_iff.mp ?_
    rw [hsorted]
    exact List.mem_cons_of_mem _ (List.mem_cons_self _ _)
  have hnd : ((List.insertionSort posLe
      (collectPositions (lowerS line).data team_names)).map Prod.snd).Nodup :=
    (((List.perm_insertionSort posLe _).map Prod.snd).nodup_iff).mpr
      (collectPositions_snd_nodup _ team_names team_names_nodup)
  rw [hsorted] at hnd
  have hne : p1.2 ≠ p2.2 := by
    simp only [List.map_cons, List.nodup_cons] at hnd
    intro he
    exact hnd.1 (by rw [he]; exact List.mem_cons_self _ _)
  have h1 : p1.2 = "tbd" :=
    team_names_tbd p1.2 (collectPositions_snd_mem _ _ p1 hmem1) hdual.1
  have h2 : p2.2 = "tbd" :=
    team_names_tbd p2.2 (collectPositions_snd_mem _ _ p2 hmem2) hdual.2
  rw [h1, h2] at hne
  exact hne rfl

/-- C5: a dual-`TBD` row is kept by the structured-table strategy and by the
micro-format strategy (shown on concrete placeholder rows); the plain-text
strategy emits a dual-`TBD` game only when a processed line contains the
literal `"tbd v tbd"` (case-insensitively, i.e. `"TBD v TBD"`), shown both
as the general exclusion and on the concrete literal line; and the
raw-markup strategy never emits a dual-`TBD` game. -/
theorem claim_C5 :
    ((parse_wikipedia_tables
        [{ caption := "", headers := ["Date", "Time"], rows := [["11 February", "15:10"]] }]
        "men").map (fun g => (g.team1, g.team2)) = [("TBD", "TBD")]) ∧
    ((parse_wikipedia_vevents
        [{ cells := ["11 February 2026 15:10", "TBD", "", "TBD"],
           heading := none, anchorHref := none }]
        "men").map (fun g => (g.team1, g.team2)) = [("TBD", "TBD")]) ∧
    (∀ (textRaw : List String) (category : String),
      (∀ l ∈ deriveLines textRaw, containsSub (lowerS l) "tbd v tbd" = false) →
      ∀ g ∈ parse_wikipedia_schedule_text textRaw category,
        ¬(g.team1 = "TBD" ∧ g.team2 = "TBD")) ∧
    ((parse_wikipedia_schedule_text ["11 February 2026", "15:10", "TBD v TBD"] "men").map
        (fun g => (g.team1, g.team2)) = [("TBD", "TBD")]) ∧
    (∀ (wikitext category : String) (g : Game),
      g ∈ parse_wikipedia_wikitext wikitext category →
      ¬(g.team1 = "TBD" ∧ g.team2 = "TBD")) := by
  refine ⟨by decide, by decide, ?_, by decide, ?_⟩
  · intro textRaw category hall g hg
    obtain ⟨ctx2, line, next?, st, hline, hguard, rfl⟩ :=
      textLoop_inv category _ _ g hg
    exact textGameOf_not_dual category ctx2 line next? st (hall line hline) hguard
  · intro wikitext category g hg
    obtain ⟨ctx2, row, st, hnd, rfl⟩ := wtLoop_mem category _ _ _ g hg
    intro hdual
    exact hnd ⟨hdual.1, hdual.2⟩

/-- The single game of the concrete scored text document. -/
def gC5w : Game :=
  (parse_wikipedia_schedule_text
      ["11 February 2026", "15:10", "Finland 3 - 2 Sweden"] "men").headD
    { category := "", start := ⟨0, 0, 0, 0, 0⟩, team1 := "", team2 := "",
      phase_key := "", phase_label := "", group_label := none, venue := none }

/-- C5 witness: the plain-text exclusion applied to the concrete scored
document, whose single game has resolved teams, not a dual-`TBD` pair. -/
theorem claim_C5_witness : ¬(gC5w.team1 = "TBD" ∧ gC5w.team2 = "TBD") :=
  claim_C5.2.2.1 ["11 February 2026", "15:10", "Finland 3 - 2 Sweden"] "men"
    (by decide) gC5w (by decide)

/-- C1 (amended): `status_suffix` implies both scores in every strategy, and
the equivalence `status_suffix ≠ none ↔ both scores ≠ none` holds for the
structured-table strategy (which never sets either), the micro-format
strategy, and the raw-markup strategy; the plain-text strategy however never
sets `status_suffix`, even when it parses a score (see the counterexample). -/
theorem claim_C1_amended :
    (∀ (tables : List WikiTable) (category : String) (g : Game),
       g ∈ parse_wikipedia_tables tables category →
       g.score1 = none ∧ g.score2 = none ∧ g.status_suffix = none) ∧
    (∀ (rows : List VEventRow) (category : String) (g : Game),
       g ∈ parse_wikipedia_vevents rows category →
       (g.status_suffix ≠ none ↔ (g.score1 ≠ none ∧ g.score2 ≠ none))) ∧
    (∀ (textRaw : List String) (category : String) (g : Game),
       g ∈ parse_wikipedia_schedule_text textRaw category → g.status_suffix = none) ∧
    (∀ (wikitext category : String) (g : Game),
       g ∈ parse_wikipedia_wikitext wikitext category →
       (g.status_suffix ≠ none ↔ (g.score1 ≠ none ∧ g.score2 ≠ none))) := by
  refine ⟨?_, ?_, ?_, ?_⟩
  · intro tables cat g h
    unfold parse_wikipedia_tables at h
    obtain ⟨gs, hgs, hg⟩ := List.mem_flatten.mp h
    obtain ⟨t, -, ht⟩ := List.mem_map.mp hgs
    rw [← ht] at hg
    exact tableRowsGames_scores _ _ cat t.rows none g hg
  · intro rows cat g h
    unfold parse_wikipedia_vevents at h
    obtain ⟨gs, hgs, hg⟩ := List.mem_flatten.mp h
    obtain ⟨r, -, hr⟩ := List.mem_map.mp hgs
    rw [← hr] at hg
    obtain ⟨c0, c1, c2, c3, rest, st, rfl⟩ := vevRowGames_shape cat r g hg
    exact vevGameOf_suffix cat r c0 c1 c2 c3 rest st
  · intro textRaw cat g h
    obtain ⟨ctx2, line, next?, st, -, -, rfl⟩ := textLoop_inv cat _ _ g h
    exact textGameOf_suffix cat ctx2 line next? st
  · intro wikitext cat g h
    obtain ⟨ctx2, row, st, -, rfl⟩ := wtLoop_mem cat _ _ _ g h
    exact wtGameOf_suffix cat ctx2 row st

/-- C1 (amended) witness: concrete games from the micro-format strategy
with a score and from the table strategy without one satisfy the
per-strategy properties. -/
theorem claim_C1_amended_witness :
    (∀ g ∈ parse_wikipedia_vevents
        [{ cells := ["11 February 2026 15:10", "Finland", "3–2 OT", "Sweden"],
           heading := none, anchorHref := none }] "women",
       (g.status_suffix ≠ none ↔ (g.score1 ≠ none ∧ g.score2 ≠ none))) :=
  fun g h => claim_C1_amended.2.1 _ "women" g h

/-- The game the plain-text strategy extracts from
`["11 February 2026", "15:10", "Finland 3 - 2 Sweden"]`. -/
def gC1 : Game :=
  { category := "men", start := ⟨2026, 2, 11, 15, 10⟩, team1 := "FIN", team2 := "SWE",
    phase_key := "preliminary", phase_label := "Skupina", group_label := none,
    venue := none, score1 := some 3, score2 := some 2 }

/-- C1 (counterexample): on this concrete document text the plain-text
strategy produces a game whose scores are present but whose
`status_suffix` is `none`, so the claimed equivalence fails for it. -/
theorem claim_C1_counterexample :
    parse_wikipedia_schedule_text ["11 February 2026", "15:10", "Finland 3 - 2 Sweden"] "men" =
      [gC1] ∧
    gC1.score1 = some 3 ∧ gC1.score2 = some 2 ∧ gC1.status_suffix = none := by
  decide

theorem parse_iso_round (d : PyDateTime) (t : List Char) (d2 : PyDateTime)
    (hok : dateOkP d)
    (h : dateutil_parse_chars (isoChars d ++ ' ' :: t) = some d2) : d2.year = d.year := by
  obtain ⟨-, hy, hm, hd⟩ := hok
  have e1 : d.year / 1000 ≤ 9 := by omega
  have e2 : d.year / 100 % 10 ≤ 9 := by omega
  have e3 : d.year / 10 % 10 ≤ 9 := by omega
  have e4 : d.year % 10 ≤ 9 := by omega
  have e5 : d.month / 10 ≤ 9 := by omega
  have e6 : d.month % 10 ≤ 9 := by omega
  have e7 : d.day / 10 ≤ 9 := by omega
  have e8 : d.day % 10 ≤ 9 := by omega
  have hlist : isoChars d ++ ' ' :: t =
      digitChar (d.year / 1000) :: digitChar (d.year / 100 % 10) :: digitChar (d.year / 10 % 10) ::
      digitChar (d.year % 10) :: '-' :: digitChar (d.month / 10) :: digitChar (d.month % 10) ::
      '-' :: digitChar (d.day / 10) :: digitChar (d.day % 10) :: ' ' :: t := rfl
  rw [hlist] at h
  unfold dateutil_parse_chars at h
  split at h
  · rename_i d0 heq
    cases h
    simp only [parseISO] at heq
    rw [if_pos (by simp [digitChar_isDigit e1, digitChar_isDigit e2, digitChar_isDigit e3,
      digitChar_isDigit e4, digitChar_isDigit e5, digitChar_isDigit e6,
      digitChar_isDigit e7, digitChar_isDigit e8])] at heq
    have hyr : natOfDigits [digitChar (d.year / 1000), digitChar (d.year / 100 % 10),
        digitChar (d.year / 10 % 10), digitChar (d.year % 10)] = d.year := by
      simp only [natOfDigits, List.foldl, charVal_digitChar e1, charVal_digitChar e2,
        charVal_digitChar e3, charVal_digitChar e4]
      omega
    rw [ite_eq_iff] at heq
    rcases heq with ⟨-, heq⟩ | ⟨-, heq⟩
    · rcases htw : timeWordVal t with - | ⟨hh, mm⟩ <;> rw [htw] at heq
      · cases heq
      · cases heq
        exact hyr
    · cases heq
  · exfalso
    have hx : ∀ c ∈ [digitChar (d.year / 1000), digitChar (d.year / 100 % 10),
        digitChar (d.year / 10 % 10), digitChar (d.year % 10)], isDigitC c = true := by
      intro c hc
      simp only [List.mem_cons, List.not_mem_nil, or_false] at hc
      rcases hc with rfl | rfl | rfl | rfl
      · exact digitChar_isDigit e1
      · exact digitChar_isDigit e2
      · exact digitChar_isDigit e3
      · exact digitChar_isDigit e4
    have hsp := splitWhile_append isDigitC
      [digitChar (d.year / 1000), digitChar (d.year / 100 % 10),
       digitChar (d.year / 10 % 10), digitChar (d.year % 10)]
      ('-' :: digitChar (d.month / 10) :: digitChar (d.month % 10) ::
       '-' :: digitChar (d.day / 10) :: digitChar (d.day % 10) :: ' ' :: t)
      hx (Or.inr ⟨'-', _, rfl, by decide⟩)
    simp only [List.cons_append, List.nil_append] at hsp
    simp only [parseDMY] at h
    rw [hsp] at h
    simp at h

theorem notEmptyBool {xs : List Char} (h : xs.isEmpty = false) : xs ≠ [] := by
  intro he
  rw [he] at h
  simp at h

theorem vevDateAt_shape (l tok : List Char) (h : vevDateAt l = some tok) :
    ∃ ds ws1 w ws2, tok = ds ++ ws1 ++ w ++ ws2 ++ ['2', '0', '2', '6'] ∧
      ds ≠ [] ∧ ds.length ≤ 2 ∧ (∀ c ∈ ds, isDigitC c = true) ∧
      ws1 ≠ [] ∧ (∀ c ∈ ws1, isWsC c = true) ∧
      w ≠ [] ∧ (∀ c ∈ w, isAlphaC c = true) ∧
      ws2 ≠ [] ∧ (∀ c ∈ ws2, isWsC c = true) := by
  simp only [vevDateAt] at h
  split at h
  · cases h
  rename_i h1
  split at h
  · cases h
  rename_i h2
  split at h
  · cases h
  rename_i h3
  split at h
  · cases h
  rename_i h4
  split at h
  · cases h
    simp only [Bool.or_eq_true, not_or, Bool.not_eq_true] at h1
    refine ⟨_, _, _, _, rfl, notEmptyBool h1.1, ?_, splitWhile_all _ _,
      notEmptyBool (by simpa using h2), splitWhile_all _ _,
      notEmptyBool (by simpa using h3), splitWhile_all _ _,
      notEmptyBool (by simpa using h4), splitWhile_all _ _⟩
    have := of_decide_eq_false h1.2
    omega
  · cases h

theorem parse_vevtok_year (ds ws1 w ws2 t : List Char) (d2 : PyDateTime)
    (hds : ds ≠ []) (hdsl : ds.length ≤ 2) (hdsd : ∀ c ∈ ds, isDigitC c = true)
    (hws1 : ws1 ≠ []) (hws1w : ∀ c ∈ ws1, isWsC c = true)
    (hw : w ≠ []) (hwa : ∀ c ∈ w, isAlphaC c = true)
    (hws2 : ws2 ≠ []) (hws2w : ∀ c ∈ ws2, isWsC c = true)
    (h : dateutil_parse_chars ((ds ++ ws1 ++ w ++ ws2 ++ ['2', '0', '2', '6']) ++ ' ' :: t) =
      some d2) :
    d2.year = 2026 := by
  obtain ⟨wc, ws1', rfl⟩ : ∃ c cs, ws1 = c :: cs := by
    cases ws1 with
    | nil => exact absurd rfl hws1
    | cons c cs => exact ⟨c, cs, rfl⟩
  obtain ⟨ac, w', rfl⟩ : ∃ c cs, w = c :: cs := by
    cases w with
    | nil => exact absurd rfl hw
    | cons c cs => exact ⟨c, cs, rfl⟩
  obtain ⟨w2c, ws2', rfl⟩ : ∃ c cs, ws2 = c :: cs := by
    cases ws2 with
    | nil => exact absurd rfl hws2
    | cons c cs => exact ⟨c, cs, rfl⟩
  have hwcws : isWsC wc = true := hws1w wc (by simp)
  have hacal : isAlphaC ac = true := hwa ac (by simp)
  have hw2cws : isWsC w2c = true := hws2w w2c (by simp)
  simp only [List.append_assoc, List.cons_append, List.nil_append] at h
  unfold dateutil_parse_chars at h
  split at h
  · rename_i d0 heq
    exfalso
    obtain ⟨-, -, -, -, -, a', b', c', e', rest', hl, -, hdb', hdc', -⟩ := parseISO_some _ _ heq
    match ds, hdsl, hds with
    | [a], _, _ =>
      rw [List.cons_append, List.nil_append] at hl
      injection hl with h1 hl2
      injection hl2 with hb2 hl3
      rw [← hb2, ws_not_digit hwcws] at hdb'
      cases hdb'
    | [a, b], _, _ =>
      rw [List.cons_append, List.cons_append, List.nil_append] at hl
      injection hl with h1 hl2
      injection hl2 with h2 hl3
      injection hl3 with hc3 hl4
      rw [← hc3, ws_not_digit hwcws] at hdc'
      cases hdc'
    | a :: b :: c :: cs, hdsl2, _ => simp at hdsl2
  · have sp1 : splitWhile isDigitC
        (ds ++ (wc :: (ws1' ++ (ac :: (w' ++ (w2c :: (ws2' ++ '2' :: '0' :: '2' :: '6' :: ' ' :: t))))))) =
        (ds, wc :: (ws1' ++ (ac :: (w' ++ (w2c :: (ws2' ++ '2' :: '0' :: '2' :: '6' :: ' ' :: t)))))) :=
      splitWhile_append _ _ _ hdsd (Or.inr ⟨wc, _, rfl, ws_not_digit hwcws⟩)
    have sp2 : splitWhile isWsC
        ((wc :: ws1') ++ (ac :: (w' ++ (w2c :: (ws2' ++ '2' :: '0' :: '2' :: '6' :: ' ' :: t))))) =
        (wc :: ws1', ac :: (w' ++ (w2c :: (ws2' ++ '2' :: '0' :: '2' :: '6' :: ' ' :: t)))) :=
      splitWhile_append _ _ _ hws1w (Or.inr ⟨ac, _, rfl, alpha_not_ws hacal⟩)
    have sp3 : splitWhile isAlphaC
        ((ac :: w') ++ (w2c :: (ws2' ++ '2' :: '0' :: '2' :: '6' :: ' ' :: t))) =
        (ac :: w', w2c :: (ws2' ++ '2' :: '0' :: '2' :: '6' :: ' ' :: t)) :=
      splitWhile_append _ _ _ hwa (Or.inr ⟨w2c, _, rfl, ws_not_alpha hw2cws⟩)
    have sp4 : splitWhile isWsC
        ((w2c :: ws2') ++ ('2' :: '0' :: '2' :: '6' :: ' ' :: t)) =
        (w2c :: ws2', '2' :: '0' :: '2' :: '6' :: ' ' :: t) :=
      splitWhile_append _ _ _ hws2w (Or.inr ⟨'2', _, rfl, by decide⟩)
    have sp5 : splitWhile isDigitC (['2', '0', '2', '6'] ++ (' ' :: t)) =
        (['2', '0', '2', '6'], ' ' :: t) :=
      splitWhile_append _ _ _ (by decide) (Or.inr ⟨' ', _, rfl, by decide⟩)
    simp only [List.cons_append, List.nil_append] at sp2 sp3 sp4 sp5
    simp only [parseDMY] at h
    rw [sp1] at h
    dsimp only at h
    split at h
    · cases h
    split at h
    · cases h
    rw [sp2] at h
    dsimp only at h
    split at h
    · cases h
    rw [sp3] at h
    dsimp only at h
    rcases hmo : monthOf (lowerL (ac :: w')) with - | mo <;> rw [hmo] at h
    · cases h
    dsimp only at h
    rw [sp4] at h
    dsimp only at h
    split at h
    · cases h
    rw [sp5] at h
    dsimp only at h
    split at h
    · have sp6 : splitWhile isWsC (' ' :: t) =
          (' ' :: (splitWhile isWsC t).1, (splitWhile isWsC t).2) := by
        simp [splitWhile, show isWsC ' ' = true from by decide]
      rw [sp6] at h
      dsimp only at h
      split at h
      · cases h
      · rcases htw : timeWordVal (splitWhile isWsC t).2 with - | hhmm <;> rw [htw] at h
        · cases h
        · obtain ⟨hh, mm⟩ := hhmm
          cases h
          rfl
    · rename_i hlen4
      exact absurd (by decide) hlen4

theorem wtUpdateContext_curDate (ctx : WtCtx) (line : String) :
    (wtUpdateContext ctx line).curDate = ctx.curDate := by
  simp only [wtUpdateContext]
  repeat' split
  all_goals rfl

theorem vevDateGo_shape : ∀ (l tok : List Char), vevDateGo l = some tok →
    ∃ ds ws1 w ws2, tok = ds ++ ws1 ++ w ++ ws2 ++ ['2', '0', '2', '6'] ∧
      ds ≠ [] ∧ ds.length ≤ 2 ∧ (∀ c ∈ ds, isDigitC c = true) ∧
      ws1 ≠ [] ∧ (∀ c ∈ ws1, isWsC c = true) ∧
      w ≠ [] ∧ (∀ c ∈ w, isAlphaC c = true) ∧
      ws2 ≠ [] ∧ (∀ c ∈ ws2, isWsC c = true) := by
  intro l
  induction l with
  | nil => intro tok h; cases h
  | cons c rest ih =>
    intro tok h
    simp only [vevDateGo] at h
    split at h
    · cases h
      exact vevDateAt_shape _ _ (by assumption)
    · exact ih _ h

theorem vevGameOf_start (cat : String) (r : VEventRow) (c0 c1 c2 c3 : String)
    (rest : List String) (st : PyDateTime) :
    (vevGameOf cat r c0 c1 c2 c3 rest st).start = st := rfl

theorem vevRowGames_year (cat : String) (r : VEventRow) (g : Game)
    (h : g ∈ vevRowGames cat r) : g.start.year = 2026 := by
  have inv : ∃ (c0 : String) (dtok ttext : List Char) (dt : PyDateTime),
      vevDateTok c0 = some dtok ∧
      dateutil_parse (String.mk (dtok ++ ' ' :: ttext)) = some dt ∧
      g.start = ⟨dt.year, dt.month, dt.day, dt.hour, dt.minute⟩ := by
    simp only [vevRowGames] at h
    repeat' split at h
    all_goals try exact absurd h (List.not_mem_nil g)
    rw [List.mem_singleton] at h
    subst h
    exact ⟨_, _, _, _, by assumption, by assumption, rfl⟩
  obtain ⟨c0, dtok, ttext, dt, hdtok, hparse, hst⟩ := inv
  obtain ⟨ds, ws1, w, ws2, rfl, hds, hdsl, hdsd, hws1, hws1w, hw, hwa, hws2, hws2w⟩ :=
    vevDateGo_shape c0.data dtok hdtok
  rw [hst]
  show dt.year = 2026
  exact parse_vevtok_year ds ws1 w ws2 ttext dt hds hdsl hdsd hws1 hws1w hw hwa hws2 hws2w hparse

theorem parse_wikipedia_vevents_year (rows : List VEventRow) (cat : String) (g : Game)
    (h : g ∈ parse_wikipedia_vevents rows cat) : g.start.year = 2026 := by
  simp only [parse_wikipedia_vevents, List.mem_flatten, List.mem_map] at h
  obtain ⟨l, ⟨r, hr, rfl⟩, hg⟩ := h
  exact vevRowGames_year cat r g hg

theorem tableGameOf_start (hi : HeaderIdxs) (cap cat : String) (texts : List String)
    (st : PyDateTime) : (tableGameOf hi cap cat texts st).start = st := rfl

theorem tableRowStep_fst (hi : HeaderIdxs) (cap cat : String) (cur : Option PyDateTime)
    (texts : List String) :
    (tableRowStep hi cap cat cur texts).1 = cur ∨
    (tableRowStep hi cap cat cur texts).1 = tableDateUpdate (cellAt texts hi.date_idx) cur := by
  simp only [tableRowStep]
  repeat' split
  all_goals first | exact Or.inl rfl | exact Or.inr rfl

theorem tableRowStep_start (hi : HeaderIdxs) (cap cat : String) (cur : Option PyDateTime)
    (texts : List String) (g : Game) (h : (tableRowStep hi cap cat cur texts).2 = some g) :
    ∃ cd dt ttext, tableDateUpdate (cellAt texts hi.date_idx) cur = some cd ∧
      dateutil_parse (String.mk (isoChars cd ++ ' ' :: ttext)) = some dt ∧
      g.start = ⟨dt.year, dt.month, dt.day, dt.hour, dt.minute⟩ := by
  simp only [tableRowStep] at h
  repeat' split at h
  all_goals try cases h
  all_goals exact ⟨_, _, _, by assumption, by assumption, rfl⟩

theorem tableRowsGames_year (hi : HeaderIdxs) (cap cat : String) :
    ∀ (rows : List (List String)) (cur : Option PyDateTime),
      (∀ d, cur = some d → dateOkP d) →
      ∀ g ∈ tableRowsGames hi cap cat cur rows, g.start.year ≠ 1900 := by
  intro rows
  induction rows with
  | nil => intro cur hok g h; simp [tableRowsGames] at h
  | cons texts rest ih =>
    intro cur hok g h
    have hok2 : ∀ d, tableDateUpdate (cellAt texts hi.date_idx) cur = some d → dateOkP d :=
      tableDateUpdate_ok _ cur hok
    simp only [tableRowsGames] at h
    rcases List.mem_append.mp h with h1 | h2
    · cases hstep : (tableRowStep hi cap cat cur texts).2 with
      | none => rw [hstep] at h1; cases h1
      | some g0 =>
        rw [hstep] at h1
        rcases List.mem_singleton.mp h1 with rfl
        obtain ⟨cd, dt, ttext, hcd, hdt, hst⟩ := tableRowStep_start hi cap cat cur texts g hstep
        have hok3 := hok2 cd hcd
        have hyr := parse_iso_round cd ttext dt hok3 hdt
        rw [hst]
        show dt.year ≠ 1900
        rw [hyr]
        exact hok3.1
    · refine ih _ ?_ g h2
      intro d hd
      rcases tableRowStep_fst hi cap cat cur texts with hf | hf
      · rw [hf] at hd; exact hok d hd
      · rw [hf] at hd; exact hok2 d hd

theorem parse_wikipedia_tables_year (tables : List WikiTable) (cat : String) (g : Game)
    (h : g ∈ parse_wikipedia_tables tables cat) : g.start.year ≠ 1900 := by
  simp only [parse_wikipedia_tables, List.mem_flatten, List.mem_map] at h
  obtain ⟨l, ⟨t, ht, rfl⟩, hg⟩ := h
  exact tableRowsGames_year (headerIdxs t.headers) t.caption cat t.rows none
    (fun d hd => by cases hd) g hg

theorem textGameOf_start (cat : String) (ctx : TextCtx) (line : String)
    (next? : Option String) (st : PyDateTime) :
    (textGameOf cat ctx line next? st).start = st := rfl

theorem textLoop_year (cat : String) :
    ∀ (lines : List String) (ctx : TextCtx),
      (∀ d, ctx.curDate = some d → dateOkP d) →
      ∀ g ∈ textLoop cat ctx lines, g.start.year ≠ 1900 := by
  intro lines
  induction lines with
  | nil => intro ctx hok g h; simp [textLoop] at h
  | cons line rest ih =>
    intro ctx hok g h
    simp only [textLoop] at h
    repeat' split at h
    all_goals first
      | (rcases List.mem_cons.mp h with rfl | h2
         · rename_i cd ct hcd hct hatt hgu
           exact fun hc => (hok cd hcd).1 hc
         · refine ih _ ?_ g h2
           intro d hd
           exact hok d hd)
      | (refine ih _ ?_ g h
         intro d hd
         first
           | exact hok d hd
           | exact parsedDateFixYear_ok _ d hd)

theorem parse_wikipedia_schedule_text_year (textRaw : List String) (cat : String) (g : Game)
    (h : g ∈ parse_wikipedia_schedule_text textRaw cat) : g.start.year ≠ 1900 := by
  exact textLoop_year cat (deriveLines textRaw) {} (fun d hd => by cases hd) g h

theorem wtGameOf_start (cat : String) (ctx2 : WtCtx) (row : String) (st : PyDateTime) :
    (wtGameOf cat ctx2 row st).start = st := rfl

theorem wtRowStep_fst_ok (cat : String) (ctx : WtCtx) (row : String)
    (hok : ∀ d, ctx.curDate = some d → dateOkP d) :
    ∀ d, (wtRowStep cat ctx row).1.curDate = some d → dateOkP d := by
  intro d hd
  simp only [wtRowStep] at hd
  repeat' split at hd
  all_goals first
    | exact hok d hd
    | exact parsedDateFixYear_ok _ d hd

theorem wtRowStep_snd_year (cat : String) (ctx : WtCtx) (row : String)
    (hok : ∀ d, ctx.curDate = some d → dateOkP d) :
    ∀ g ∈ (wtRowStep cat ctx row).2, g.start.year ≠ 1900 := by
  intro g h
  cases hdtk : wtDateTok row with
  | none =>
    simp only [wtRowStep, hdtk] at h
    have inv : ∃ cd dt ttext, ctx.curDate = some cd ∧
        dateutil_parse (String.mk (isoChars cd ++ ' ' :: ttext)) = some dt ∧
        g.start = ⟨dt.year, dt.month, dt.day, dt.hour, dt.minute⟩ := by
      repeat' split at h
      all_goals try exact absurd h (List.not_mem_nil g)
      rw [List.mem_singleton] at h
      subst h
      exact ⟨_, _, _, by assumption, by assumption, rfl⟩
    obtain ⟨cd, dt, ttext, hcd, hdt, hst⟩ := inv
    have hok3 := hok cd hcd
    have hyr := parse_iso_round cd ttext dt hok3 hdt
    rw [hst]
    show dt.year ≠ 1900
    rw [hyr]
    exact hok3.1
  | some tok =>
    simp only [wtRowStep, hdtk] at h
    have inv : ∃ cd dt ttext, parsedDateFixYear tok = some cd ∧
        dateutil_parse (String.mk (isoChars cd ++ ' ' :: ttext)) = some dt ∧
        g.start = ⟨dt.year, dt.month, dt.day, dt.hour, dt.minute⟩ := by
      repeat' split at h
      all_goals try exact absurd h (List.not_mem_nil g)
      rw [List.mem_singleton] at h
      subst h
      exact ⟨_, _, _, by assumption, by assumption, rfl⟩
    obtain ⟨cd, dt, ttext, hcd, hdt, hst⟩ := inv
    have hok3 := parsedDateFixYear_ok tok cd hcd
    have hyr := parse_iso_round cd ttext dt hok3 hdt
    rw [hst]
    show dt.year ≠ 1900
    rw [hyr]
    exact hok3.1

theorem wtLoop_year (cat : String) :
    ∀ (lines : List String) (ctx : WtCtx) (buf : List String),
      (∀ d, ctx.curDate = some d → dateOkP d) →
      ∀ g ∈ wtLoop cat ctx buf lines, g.start.year ≠ 1900 := by
  intro lines
  induction lines with
  | nil => intro ctx buf hok g h; simp [wtLoop] at h
  | cons line rest ih =>
    intro ctx buf hok g h
    have hok1 : ∀ d, (wtUpdateContext ctx line).curDate = some d → dateOkP d := by
      intro d hd
      rw [wtUpdateContext_curDate] at hd
      exact hok d hd
    simp only [wtLoop] at h
    split at h
    · rcases List.mem_append.mp h with h1 | h2
      · exact wtRowStep_snd_year cat _ _ hok1 g h1
      · exact ih _ _ (wtRowStep_fst_ok cat _ _ hok1) g h2
    · exact ih _ _ hok1 g h

theorem parse_wikipedia_wikitext_year (wikitext cat : String) (g : Game)
    (h : g ∈ parse_wikipedia_wikitext wikitext cat) : g.start.year ≠ 1900 := by
  exact wtLoop_year cat (splitLines wikitext) {} [] (fun d hd => by cases hd) g h

theorem parsedDateFixYear_1900 (tok : List Char) (d : PyDateTime)
    (hp : dateutil_parse_chars tok = some d) (h9 : d.year = 1900) :
    parsedDateFixYear tok = some { d with year := YEAR } := by
  unfold parsedDateFixYear
  rw [hp]
  show some (fixYear d) = some { d with year := YEAR }
  unfold fixYear
  rw [if_pos h9]

theorem tableDateUpdate_1900 (raw : String) (cur : Option PyDateTime) (d : PyDateTime)
    (hd1 : lowerS (stripS raw) ≠ "date") (hd2 : lowerS (stripS raw) ≠ "datum")
    (hp : dateutil_parse raw = some d) (h9 : d.year = 1900) :
    tableDateUpdate raw cur = some { d with year := YEAR } := by
  have hne : raw ≠ "" := by
    intro he
    rw [he] at hp
    have h0 : dateutil_parse "" = (none : Option PyDateTime) := rfl
    rw [h0] at hp
    cases hp
  simp only [tableDateUpdate]
  rw [if_neg (not_or.mpr ⟨hd1, hd2⟩)]
  rw [if_neg hne, if_neg hne]
  rw [hp]
  show some (fixYear d) = some { d with year := YEAR }
  unfold fixYear
  rw [if_pos h9]

/-- C6: every extraction strategy rewrites the ambiguous default year 1900
to the tournament year 2026 in the start it produces: the shared
parse-and-fix date update of the plain-text and raw-markup strategies and
the table strategy's date-cell update both turn a token whose parse
carries year 1900 into the same date with year 2026, and no game emitted
by any of the four strategies carries start year 1900 (the micro-format
strategy's games all carry year 2026 outright, its date regex requiring
the literal `2026`). -/
theorem claim_C6 :
    (∀ (tok : List Char) (d : PyDateTime),
       dateutil_parse_chars tok = some d → d.year = 1900 →
       parsedDateFixYear tok = some { d with year := YEAR }) ∧
    (∀ (raw : String) (cur : Option PyDateTime) (d : PyDateTime),
       lowerS (stripS raw) ≠ "date" → lowerS (stripS raw) ≠ "datum" →
       dateutil_parse raw = some d → d.year = 1900 →
       tableDateUpdate raw cur = some { d with year := YEAR }) ∧
    (∀ (tables : List WikiTable) (category : String) (g : Game),
       g ∈ parse_wikipedia_tables tables category → g.start.year ≠ 1900) ∧
    (∀ (rows : List VEventRow) (category : String) (g : Game),
       g ∈ parse_wikipedia_vevents rows category → g.start.year = 2026) ∧
    (∀ (textRaw : List String) (category : String) (g : Game),
       g ∈ parse_wikipedia_schedule_text textRaw category → g.start.year ≠ 1900) ∧
    (∀ (wikitext category : String) (g : Game),
       g ∈ parse_wikipedia_wikitext wikitext category → g.start.year ≠ 1900) :=
  ⟨parsedDateFixYear_1900, tableDateUpdate_1900, parse_wikipedia_tables_year,
   parse_wikipedia_vevents_year, parse_wikipedia_schedule_text_year,
   parse_wikipedia_wikitext_year⟩

/-- A concrete table whose date cell parses with the default year 1900. -/
def tC6 : WikiTable :=
  { caption := "", headers := ["Date", "Time"], rows := [["11 February", "15:10"]] }

/-- The single game of that concrete table. -/
def gC6w : Game :=
  (parse_wikipedia_tables [tC6] "men").headD
    { category := "", start := ⟨0, 0, 0, 0, 0⟩, team1 := "", team2 := "",
      phase_key := "", phase_label := "", group_label := none, venue := none }

/-- C6 witness: `11 February` parses with default year 1900; the shared
fix maps it to the same date in 2026, and the concrete table's game does
not carry 1900. -/
theorem claim_C6_witness :
    dateutil_parse "11 February" = some ⟨1900, 2, 11, 0, 0⟩ ∧
    parsedDateFixYear "11 February".data = some ⟨2026, 2, 11, 0, 0⟩ ∧
    gC6w.start.year ≠ 1900 :=
  ⟨by decide,
   claim_C6.1 "11 February".data ⟨1900, 2, 11, 0, 0⟩ (by decide) rfl,
   claim_C6.2.2.1 [tC6] "men" gC6w (by decide)⟩

theorem nlookup_mem : ∀ (m : List (Nat × Nat)) (i v : Nat),
    nlookup m i = some v → (i, v) ∈ m := by
  intro m
  induction m with
  | nil => intro i v h; cases h
  | cons kv rest ih =>
    intro i v h
    obtain ⟨k, w⟩ := kv
    simp only [nlookup] at h
    split at h
    · cases h
      rename_i hik
      subst hik
      exact List.mem_cons_self _ _
    · exact List.mem_cons_of_mem _ (ih i v h)

theorem nlookup_isSome_of : ∀ (m : List (Nat × Nat)) (i v : Nat),
    (i, v) ∈ m → (nlookup m i).isSome = true := by
  intro m
  induction m with
  | nil => intro i v h; cases h
  | cons kv rest ih =>
    intro i v h
    obtain ⟨k, w⟩ := kv
    simp only [nlookup]
    split
    · rfl
    · rename_i hik
      rcases List.mem_cons.mp h with heq | hmem
      · rw [Prod.mk.injEq] at heq
        exact absurd heq.1 hik
      · exact ih i v hmem

theorem buildIdx_key_of_mem : ∀ (l : List (Nat × Game)) (c : String → Nat) (i : Nat) (g : Game),
    (i, g) ∈ l → g.phase_key ∈ PLAYOFF_PHASES → ∃ v, (i, v) ∈ buildIdx l c := by
  intro l
  induction l with
  | nil => intro c i g h; cases h
  | cons jg rest ih =>
    intro c i g h hp
    obtain ⟨j, g0⟩ := jg
    rcases List.mem_cons.mp h with heq | hmem
    · rw [Prod.mk.injEq] at heq
      obtain ⟨rfl, rfl⟩ := heq
      simp only [buildIdx]
      rw [if_pos hp]
      exact ⟨c g.phase_key + 1, List.mem_cons_self _ _⟩
    · simp only [buildIdx]
      split
      · obtain ⟨v, hv⟩ := ih (bumpAt c g0.phase_key) i g hmem hp
        exact ⟨v, List.mem_cons_of_mem _ hv⟩
      · exact ih c i g hmem hp

theorem buildIdx_mem_inv : ∀ (l : List (Nat × Game)) (c : String → Nat) (i v : Nat),
    (i, v) ∈ buildIdx l c → ∃ g, (i, g) ∈ l ∧ g.phase_key ∈ PLAYOFF_PHASES := by
  intro l
  induction l with
  | nil => intro c i v h; cases h
  | cons jg rest ih =>
    intro c i v h
    obtain ⟨j, g0⟩ := jg
    simp only [buildIdx] at h
    split at h
    · rcases List.mem_cons.mp h with heq | hmem
      · rw [Prod.mk.injEq] at heq
        obtain ⟨rfl, -⟩ := heq
        exact ⟨g0, List.mem_cons_self _ _, by assumption⟩
      · obtain ⟨g, hg, hgp⟩ := ih _ i v hmem
        exact ⟨g, List.mem_cons_of_mem _ hg, hgp⟩
    · obtain ⟨g, hg, hgp⟩ := ih c i v h
      exact ⟨g, List.mem_cons_of_mem _ hg, hgp⟩

theorem nodup_fst_eq {α β : Type} : ∀ (l : List (α × β)),
    (l.map Prod.fst).Nodup → ∀ (a : α) (b1 b2 : β), (a, b1) ∈ l → (a, b2) ∈ l → b1 = b2 := by
  intro l
  induction l with
  | nil => intro _ a b1 b2 h; cases h
  | cons xy rest ih =>
    intro hnd a b1 b2 h1 h2
    obtain ⟨x, y⟩ := xy
    rw [List.map_cons, List.nodup_cons] at hnd
    rcases List.mem_cons.mp h1 with he1 | hm1 <;> rcases List.mem_cons.mp h2 with he2 | hm2
    · rw [Prod.mk.injEq] at he1 he2
      rw [he1.2, he2.2]
    · rw [Prod.mk.injEq] at he1
      exfalso
      apply hnd.1
      rw [← he1.1]
      have h3 := List.mem_map_of_mem Prod.fst hm2
      exact h3
    · rw [Prod.mk.injEq] at he2
      exfalso
      apply hnd.1
      rw [← he2.1]
      have h3 := List.mem_map_of_mem Prod.fst hm1
      exact h3
    · exact ih hnd.2 a b1 b2 hm1 hm2

theorem mem_of_mem_enum2 {α : Type} {l : List α} {p : Nat × α} (h : p ∈ l.enum) : p.2 ∈ l := by
  have h2 := List.mem_map_of_mem Prod.snd h
  rwa [List.enum_map_snd] at h2

theorem enum_fst_nodup {α : Type} (l : List α) : (l.enum.map Prod.fst).Nodup := by
  rw [List.enum_map_fst]
  exact List.nodup_range _

theorem sortedE_fst_nodup (games : List Game) :
    ((List.insertionSort enumLe games.enum).map Prod.fst).Nodup :=
  (((List.perm_insertionSort enumLe games.enum).map Prod.fst).nodup_iff).mpr
    (enum_fst_nodup games)

theorem applyIdx_start (m : List (Nat × Nat)) (ig : Nat × Game) :
    (applyIdx m ig).start = ig.2.start := by
  unfold applyIdx
  split <;> rfl

theorem applyIdx_phase (m : List (Nat × Nat)) (ig : Nat × Game) :
    (applyIdx m ig).phase_key = ig.2.phase_key := by
  unfold applyIdx
  split <;> rfl

theorem applyIdx_pidx (m : List (Nat × Nat)) (ig : Nat × Game)
    (h : ig.2.playoff_index = none) : (applyIdx m ig).playoff_index = nlookup m ig.1 := by
  unfold applyIdx
  split
  · rename_i k hk; rw [hk]
  · rename_i hk; rw [hk]; exact h

theorem orderedInsert_map_start (f : Nat × Game → Game)
    (hf : ∀ ig, (f ig).start = ig.2.start) (a : Nat × Game) :
    ∀ l : List (Nat × Game),
      List.orderedInsert gameLe (f a) (l.map f) = (List.orderedInsert enumLe a l).map f := by
  intro l
  induction l with
  | nil => rfl
  | cons b t ih =>
    simp only [List.map_cons, List.orderedInsert]
    by_cases h : enumLe a b
    · rw [if_pos (show gameLe (f a) (f b) from by
        unfold gameLe; rw [hf a, hf b]; exact h), if_pos h]
      simp only [List.map_cons]
    · rw [if_neg (show ¬gameLe (f a) (f b) from by
        unfold gameLe; rw [hf a, hf b]; exact h), if_neg h]
      simp only [List.map_cons]
      rw [ih]

theorem insertionSort_map_start (f : Nat × Game → Game)
    (hf : ∀ ig, (f ig).start = ig.2.start) :
    ∀ l : List (Nat × Game),
      List.insertionSort gameLe (l.map f) = (List.insertionSort enumLe l).map f := by
  intro l
  induction l with
  | nil => rfl
  | cons a t ih =>
    simp only [List.map_cons, List.insertionSort, ih]
    exact orderedInsert_map_start f hf a _

theorem buildIdx_phase (p : String) (hp : p ∈ PLAYOFF_PHASES) :
    ∀ (l : List (Nat × Game)) (c : String → Nat),
      (l.map Prod.fst).Nodup →
      (l.filter (fun ig => decide (ig.2.phase_key = p))).map
          (fun ig => nlookup (buildIdx l c) ig.1) =
        (List.range ((l.filter (fun ig => decide (ig.2.phase_key = p))).length)).map
          (fun n => some (c p + n + 1)) := by
  intro l
  induction l with
  | nil => intro c hnd; rfl
  | cons ig0 rest ih =>
    intro c hnd
    obtain ⟨i, g⟩ := ig0
    rw [List.map_cons, List.nodup_cons] at hnd
    have hni : ∀ jg : Nat × Game, jg ∈ rest → jg.1 ≠ i := by
      intro jg hm he
      apply hnd.1
      show i ∈ List.map Prod.fst rest
      rw [← he]
      exact List.mem_map_of_mem Prod.fst hm
    by_cases hpk : g.phase_key ∈ PLAYOFF_PHASES
    · have hbi : buildIdx ((i, g) :: rest) c =
          (i, c g.phase_key + 1) :: buildIdx rest (bumpAt c g.phase_key) := by
        simp only [buildIdx]
        rw [if_pos hpk]
      have htail : (rest.filter (fun ig => decide (ig.2.phase_key = p))).map
          (fun ig => nlookup ((i, c g.phase_key + 1) ::
            buildIdx rest (bumpAt c g.phase_key)) ig.1) =
          (rest.filter (fun ig => decide (ig.2.phase_key = p))).map
          (fun ig => nlookup (buildIdx rest (bumpAt c g.phase_key)) ig.1) := by
        refine List.map_congr_left fun jg hjg => ?_
        simp only [nlookup]
        rw [if_neg (hni jg (List.mem_of_mem_filter hjg))]
      by_cases hpp : g.phase_key = p
      · rw [hbi,
          show List.filter (fun ig : Nat × Game => decide (ig.2.phase_key = p)) ((i, g) :: rest) =
            (i, g) :: List.filter (fun ig => decide (ig.2.phase_key = p)) rest from
            List.filter_cons_of_pos (by simp [hpp]),
          List.map_cons, List.length_cons,
          List.range_succ_eq_map, List.map_cons, List.map_map]
        refine List.cons_eq_cons.mpr ⟨?_, ?_⟩
        · simp [nlookup, hpp]
        · rw [htail, ih (bumpAt c g.phase_key) hnd.2,
            show bumpAt c g.phase_key p = c p + 1 from by
              unfold bumpAt
              rw [if_pos hpp.symm, hpp]]
          refine List.map_congr_left fun n _ => ?_
          simp only [Function.comp]
          exact congrArg some (by omega)
      · rw [hbi,
          show List.filter (fun ig : Nat × Game => decide (ig.2.phase_key = p)) ((i, g) :: rest) =
            List.filter (fun ig => decide (ig.2.phase_key = p)) rest from
            List.filter_cons_of_neg (by simp [hpp]),
          htail, ih (bumpAt c g.phase_key) hnd.2,
          show bumpAt c g.phase_key p = c p from by
            unfold bumpAt
            exact if_neg (fun he => hpp he.symm)]
    · have hbi : buildIdx ((i, g) :: rest) c = buildIdx rest c := by
        simp only [buildIdx]
        rw [if_neg hpk]
      rw [hbi,
        show List.filter (fun ig : Nat × Game => decide (ig.2.phase_key = p)) ((i, g) :: rest) =
          List.filter (fun ig => decide (ig.2.phase_key = p)) rest from
          List.filter_cons_of_neg (by
            simp only [decide_eq_true_eq]
            intro he
            exact hpk (by rw [he]; exact hp))]
      exact ih c hnd.2

theorem assign_playoff_isSome (games : List Game) (g : Game)
    (h : g ∈ assign_playoff_indices games) (hp : g.phase_key ∈ PLAYOFF_PHASES) :
    g.playoff_index.isSome = true := by
  simp only [assign_playoff_indices, List.mem_map] at h
  obtain ⟨ig, hig, rfl⟩ := h
  rw [applyIdx_phase] at hp
  cases hnl : nlookup (buildIdx (List.insertionSort enumLe games.enum) (fun _ => 0)) ig.1 with
  | some k =>
    unfold applyIdx
    rw [hnl]
    rfl
  | none =>
    exfalso
    have higs : ig ∈ List.insertionSort enumLe games.enum :=
      (List.perm_insertionSort enumLe games.enum).mem_iff.mpr hig
    obtain ⟨v, hv⟩ := buildIdx_key_of_mem _ (fun _ => 0) ig.1 ig.2 higs hp
    have h2 := nlookup_isSome_of _ ig.1 v hv
    rw [hnl] at h2
    cases h2

theorem assign_playoff_none (games : List Game)
    (hnone : ∀ g0 ∈ games, g0.playoff_index = none) (g : Game)
    (h : g ∈ assign_playoff_indices games) (hp : g.phase_key ∉ PLAYOFF_PHASES) :
    g.playoff_index = none := by
  simp only [assign_playoff_indices, List.mem_map] at h
  obtain ⟨ig, hig, rfl⟩ := h
  rw [applyIdx_phase] at hp
  cases hnl : nlookup (buildIdx (List.insertionSort enumLe games.enum) (fun _ => 0)) ig.1 with
  | none =>
    unfold applyIdx
    rw [hnl]
    exact hnone ig.2 (mem_of_mem_enum2 hig)
  | some v =>
    exfalso
    obtain ⟨g', hg', hpg'⟩ := buildIdx_mem_inv _ _ ig.1 v (nlookup_mem _ _ _ hnl)
    have hg'e : (ig.1, g') ∈ games.enum :=
      (List.perm_insertionSort enumLe games.enum).mem_iff.mp hg'
    have heq : g' = ig.2 :=
      nodup_fst_eq games.enum (enum_fst_nodup games) ig.1 g' ig.2 hg'e hig
    exact hp (heq ▸ hpg')

theorem assign_playoff_order (games : List Game)
    (hnone : ∀ g0 ∈ games, g0.playoff_index = none) (p : String) (hp : p ∈ PLAYOFF_PHASES) :
    ((List.insertionSort gameLe (assign_playoff_indices games)).filter
        (fun g => decide (g.phase_key = p))).map (fun g => g.playoff_index) =
      (List.range ((games.filter (fun g => decide (g.phase_key = p))).length)).map
        (fun n => some (n + 1)) := by
  simp only [assign_playoff_indices]
  rw [insertionSort_map_start _ (applyIdx_start _), List.filter_map, List.map_map]
  have hfil : List.filter ((fun g => decide (g.phase_key = p)) ∘
      applyIdx (buildIdx (List.insertionSort enumLe games.enum) (fun _ => 0)))
      (List.insertionSort enumLe games.enum) =
      List.filter (fun ig => decide (ig.2.phase_key = p))
      (List.insertionSort enumLe games.enum) := by
    refine List.filter_congr fun ig _ => ?_
    simp only [Function.comp]
    rw [applyIdx_phase]
  rw [hfil]
  have hmap : (List.filter (fun ig : Nat × Game => decide (ig.2.phase_key = p))
      (List.insertionSort enumLe games.enum)).map
      ((fun g => g.playoff_index) ∘
        applyIdx (buildIdx (List.insertionSort enumLe games.enum) (fun _ => 0))) =
      (List.filter (fun ig : Nat × Game => decide (ig.2.phase_key = p))
      (List.insertionSort enumLe games.enum)).map
      (fun ig => nlookup (buildIdx (List.insertionSort enumLe games.enum) (fun _ => 0)) ig.1) := by
    refine List.map_congr_left fun ig hig => ?_
    simp only [Function.comp]
    exact applyIdx_pidx _ ig (hnone ig.2 (mem_of_mem_enum2
      ((List.perm_insertionSort enumLe games.enum).mem_iff.mp (List.mem_of_mem_filter hig))))
  rw [hmap, buildIdx_phase p hp _ (fun _ => 0) (sortedE_fst_nodup games)]
  have hlen : (List.filter (fun ig : Nat × Game => decide (ig.2.phase_key = p))
      (List.insertionSort enumLe games.enum)).length =
      (games.filter (fun g => decide (g.phase_key = p))).length := by
    rw [((List.perm_insertionSort enumLe games.enum).filter _).length_eq]
    conv_rhs => rw [← List.enum_map_snd games]
    rw [List.filter_map, List.length_map]
    exact congrArg List.length (List.filter_congr fun ig _ => rfl)
  rw [hlen]
  simp only [Nat.zero_add]

/-- C4: starting from strategy output (where no game carries an index yet),
`assign_playoff_indices` gives every playoff-phase game an index, leaves
games outside the playoff set unindexed, and within each playoff phase the
indices read along ascending start order are exactly 1..N; `main` applies
it before the relevance filter (per-category processing is
assign-then-filter-then-sort). -/
theorem claim_C4 (games : List Game)
    (hnone : ∀ g ∈ games, g.playoff_index = none) :
    (∀ g ∈ assign_playoff_indices games,
       g.phase_key ∈ PLAYOFF_PHASES → g.playoff_index.isSome = true) ∧
    (∀ g ∈ assign_playoff_indices games,
       g.phase_key ∉ PLAYOFF_PHASES → g.playoff_index = none) ∧
    (∀ p ∈ PLAYOFF_PHASES,
       ((List.insertionSort gameLe (assign_playoff_indices games)).filter
           (fun g => decide (g.phase_key = p))).map (fun g => g.playoff_index) =
         (List.range ((games.filter (fun g => decide (g.phase_key = p))).length)).map
           (fun n => some (n + 1))) ∧
    (∀ gs : List Game,
       process_category gs =
         List.insertionSort gameLe ((assign_playoff_indices gs).filter should_include)) :=
  ⟨fun g h hp => assign_playoff_isSome games g h hp,
   fun g h hp => assign_playoff_none games hnone g h hp,
   fun p hp => assign_playoff_order games hnone p hp,
   fun _ => rfl⟩

/-- Three strategy-shaped games: two gold-phase games given out of
chronological order and one preliminary game, none carrying an index. -/
def gsC4 : List Game :=
  [{ category := "men", start := ⟨2026, 2, 22, 15, 0⟩, team1 := "TBD", team2 := "TBD",
     phase_key := "gold", phase_label := "Finále", group_label := none, venue := none },
   { category := "men", start := ⟨2026, 2, 22, 12, 0⟩, team1 := "TBD", team2 := "TBD",
     phase_key := "gold", phase_label := "Finále", group_label := none, venue := none },
   { category := "men", start := ⟨2026, 2, 11, 15, 10⟩, team1 := "FIN", team2 := "SWE",
     phase_key := "preliminary", phase_label := "Skupina", group_label := none, venue := none }]

/-- C4 witness: on the concrete list the gold-phase indices along ascending
start order are exactly `[some 1, some 2]`. -/
theorem claim_C4_witness :
    ((List.insertionSort gameLe (assign_playoff_indices gsC4)).filter
        (fun g => decide (g.phase_key = "gold"))).map (fun g => g.playoff_index) =
      (List.range ((gsC4.filter (fun g => decide (g.phase_key = "gold"))).length)).map
        (fun n => some (n + 1)) :=
  (claim_C4 gsC4 (by decide)).2.2.1 "gold" (by decide)

end Generate


